import Mathlib

/-!
# SyncPoint: the dependency-tracking and blocking-coordination engine

A shallow embedding of `SyncPoint::Data` (src/sync_point_impl.cpp) and of the claims of the
specification about it.

The engine is one record of containers guarded by one mutex.  Every member function below is
embedded as a function on that record.  `Process` releases the mutex in two places only (inside
`cv_.wait` and around the callback invocation), so it is cut at these two places into three
sections, each of which runs with the mutex held from its first to its last statement:

* `ProcessEnter`: from the call up to the first `cv_.wait`, the unlock before the callback, or a
  return;
* `ProcessWake`: from a wake-up inside `cv_.wait` up to the next of the same three;
* `ProcessCallbackReturn`: from the re-lock after the callback to the return.

The unlocked read of `enabled_` at the top of `Process` is folded into `ProcessEnter`: the locked
part of `Process` never reads the flag again, so a toggle between the test and the lock commutes
with the section.
-/

namespace SyncPoint

/-! ## Data model -/

/-- Thread identity (`std::thread::id`); the engine only compares thread ids for equality. -/
abbrev ThreadId := Nat

/-- The `void*` argument passed through to a callback, as an address. -/
abbrev CbArg := Nat

/-- A registered `std::function<void(void*)>`: a function value, named by a tag.  Its body is not
engine code; the engine's only use of it is to invoke it, which the embedding records. -/
abbrev CallBack := Nat

/-- The struct `SyncPoint::SyncPointPair` of sync_point.h. -/
structure SyncPointPair where
  predecessor : String
  successor : String
deriving DecidableEq

/-- A `std::unordered_map<std::string, V>`, seen through `find`: the value stored under a key, or
`none` where `find` returns `end()`.  An entry holding an empty vector (`some []`) is different
from no entry. -/
abbrev StrMap (V : Type) := String → Option V

namespace StrMap

/-- The member `clear()`: no key has an entry. -/
def clear {V : Type} : StrMap V := fun _ => none

/-- The member `erase(key)`. -/
def erase {V : Type} (m : StrMap V) (key : String) : StrMap V :=
  fun k => if k = key then none else m k

/-- The expression `m[key]` on a map of vectors, read only: an absent key gets a
default-constructed (empty) vector. -/
def subscript (m : StrMap (List String)) (key : String) : StrMap (List String) :=
  fun k => if k = key then some ((m key).getD []) else m k

/-- The statement `m[key].push_back(value)`. -/
def push_back (m : StrMap (List String)) (key value : String) : StrMap (List String) :=
  fun k => if k = key then some ((m key).getD [] ++ [value]) else m k

/-- The statement `m[key] = value`. -/
def assign {V : Type} (m : StrMap V) (key : String) (value : V) : StrMap V :=
  fun k => if k = key then some value else m k

/-- The member `emplace(key, value)` of a map with unique keys: inserts only where the key has no
entry yet, and leaves an existing entry as it is. -/
def emplace {V : Type} (m : StrMap V) (key : String) (value : V) : StrMap V :=
  fun k => if k = key then (match m key with
                            | some old => some old
                            | none => some value) else m k

end StrMap

/-- Modelled from the spec: the member declarations of `SyncPoint::Data` (its header,
sync_point_impl.h, is not among the sources; the member names are those used in
sync_point_impl.cpp).  Section 2 of the spec gives their kinds: the two directions of the
dependency graph and the marker table map a point name to a list of point names, the
thread-affinity table maps a marked point to one thread, the clearance set is a set of point
names, the registry maps a point name to a single callback, with a counter of callbacks
currently executing and the enable flag. -/
structure Data where
  successors_ : StrMap (List String)
  predecessors_ : StrMap (List String)
  callbacks_ : StrMap CallBack
  markers_ : StrMap (List String)
  marked_thread_id_ : StrMap ThreadId
  cleared_points_ : Finset String
  enabled_ : Bool
  num_callbacks_running_ : Int

/-- Modelled from the spec: the constructor of `SyncPoint::Data` (in the missing header).  All
containers start empty, no callback is running, and processing is disabled ("this is the default
at process start"). -/
def Data.init : Data :=
  { successors_ := StrMap.clear
    predecessors_ := StrMap.clear
    callbacks_ := StrMap.clear
    markers_ := StrMap.clear
    marked_thread_id_ := StrMap.clear
    cleared_points_ := ∅
    enabled_ := false
    num_callbacks_running_ := 0 }

/-! ## Operations defined in the missing header -/

/-- Modelled from the spec: `EnableProcessing` (body in the missing header) "toggles the
fast-path flag". -/
def EnableProcessing (d : Data) : Data := { d with enabled_ := true }

/-- Modelled from the spec: `DisableProcessing` (body in the missing header) "toggles the
fast-path flag". -/
def DisableProcessing (d : Data) : Data := { d with enabled_ := false }

/-- Modelled from the spec: `ClearTrace` (body in the missing header) "empties the clearance set
only (dependency graph, markers, and callbacks untouched)". -/
def ClearTrace (d : Data) : Data := { d with cleared_points_ := ∅ }

/-- Modelled from the spec: `SetCallBack` (body in the missing header) "installs/replaces the
callback for a point". -/
def SetCallBack (d : Data) (point : String) (callback : CallBack) : Data :=
  { d with callbacks_ := d.callbacks_.assign point callback }

/-- Modelled from the spec: `DisabledByMarker(point, thread_id)` (body in the missing header),
the test of step 4 of the report protocol: "if this point was marked by some predecessor and the
calling thread is not the thread recorded as authorized for it, treat the point as inert for
this call".  A point is marked by a predecessor when that predecessor's `Process` records a
thread for it (step 3), so the test is: a thread is recorded for the point, and it is not the
calling thread. -/
def DisabledByMarker (d : Data) (point : String) (thread_id : ThreadId) : Bool :=
  match d.marked_thread_id_ point with
  | some authorized => decide (thread_id ≠ authorized)
  | none => false

/-! ## Graph and marker loading (sync_point_impl.cpp, lines 10-54) -/

/-- The body of the loop over `dependencies` (lines 16-17, and 37-38). -/
def addDependency (d : Data) (dependency : SyncPointPair) : Data :=
  { d with
    successors_ := d.successors_.push_back dependency.predecessor dependency.successor
    predecessors_ := d.predecessors_.push_back dependency.successor dependency.predecessor }

/-- The body of the loop over `markers` (lines 45-47). -/
def addMarker (d : Data) (marker : SyncPointPair) : Data :=
  { d with
    successors_ := d.successors_.push_back marker.predecessor marker.successor
    predecessors_ := d.predecessors_.push_back marker.successor marker.predecessor
    markers_ := d.markers_.push_back marker.predecessor marker.successor }

/-- The function `SyncPoint::Data::LoadDependency` (lines 10-25): clears `successors_`,
`predecessors_` and `cleared_points_`, then adds the edges in order.  (`cv_.notify_all()` wakes
the waiters; a waiter may wake at any time in this embedding.) -/
def LoadDependency (d : Data) (dependencies : List SyncPointPair) : Data :=
  dependencies.foldl addDependency
    { d with
      successors_ := StrMap.clear
      predecessors_ := StrMap.clear
      cleared_points_ := ∅ }

/-- The function `SyncPoint::Data::LoadDependencyAndMarkers` (lines 27-54): clears the five
containers, adds the dependency edges in order, then the marker edges in order. -/
def LoadDependencyAndMarkers (d : Data) (dependencies markers : List SyncPointPair) : Data :=
  markers.foldl addMarker
    (dependencies.foldl addDependency
      { d with
        successors_ := StrMap.clear
        predecessors_ := StrMap.clear
        cleared_points_ := ∅
        markers_ := StrMap.clear
        marked_thread_id_ := StrMap.clear })

/-! ## Callback registry (lines 65-79) -/

/-- The function `SyncPoint::Data::ClearCallBack` (lines 65-71): while a callback is running the
caller sits in `cv_.wait` (`none`: the call has not completed); otherwise the entry is erased. -/
def ClearCallBack (d : Data) (point : String) : Option Data :=
  if d.num_callbacks_running_ > 0 then none
  else some { d with callbacks_ := d.callbacks_.erase point }

/-- The function `SyncPoint::Data::ClearAllCallBacks` (lines 73-79). -/
def ClearAllCallBacks (d : Data) : Option Data :=
  if d.num_callbacks_running_ > 0 then none
  else some { d with callbacks_ := StrMap.clear }

/-! ## The report protocol (lines 56-63 and 81-130) -/

/-- The loop of `PredecessorsAllCleared` (lines 57-62) over the vector of predecessors: `false`
at the first one with `cleared_points_.count(pred) == 0`, `true` when the vector is exhausted. -/
def allCleared (cleared : Finset String) : List String → Bool
  | [] => true
  | pred :: rest => if pred ∉ cleared then false else allCleared cleared rest

/-- The function `SyncPoint::Data::PredecessorsAllCleared` (lines 56-63).  The expression
`predecessors_[point]` creates an empty entry for a point that has none, so the function returns
the updated record next to its result. -/
def PredecessorsAllCleared (d : Data) (point : String) : Bool × Data :=
  let d1 : Data := { d with predecessors_ := d.predecessors_.subscript point }
  (allCleared d1.cleared_points_ ((d1.predecessors_ point).getD []), d1)

/-- Where a `Process` call stands when it next gives up the mutex. -/
inductive Status where
  /-- Returned at line 83: processing is not enabled. -/
  | not_enabled
  /-- Returned at line 110 or line 116: the point is disabled by a marker for this thread. -/
  | disabled_by_marker
  /-- Inside `cv_.wait` (line 114): the call is blocked. -/
  | waiting
  /-- At line 124: the mutex is released and the callback is being invoked. -/
  | in_callback (cb : CallBack)
  /-- Returned at line 130, after inserting the point into `cleared_points_`. -/
  | cleared
deriving DecidableEq

/-- The loop of lines 101-106 over the marked points of one entry of `markers_`:
`marked_thread_id_.emplace(marked_point, thread_id)` for each, in order. -/
def armLoop (thread_id : ThreadId) (d : Data) (marked : List String) : Data :=
  marked.foldl
    (fun acc marked_point =>
      { acc with marked_thread_id_ := acc.marked_thread_id_.emplace marked_point thread_id })
    d

/-- The arming step of `Process` (lines 99-107): when `point` has an entry in `markers_`, run the
loop over its marked points. -/
def armMarkers (d : Data) (point : String) (thread_id : ThreadId) : Data :=
  match d.markers_ point with
  | none => d
  | some marked => armLoop thread_id d marked

/-- Lines 120-129 up to the next release of the mutex: with a callback registered, the counter is
incremented and the mutex unlocked for the invocation (lines 122-124); with none, the point is
inserted into `cleared_points_` and `Process` returns (lines 128-130). -/
def afterPredecessors (d : Data) (point : String) : Status × Data :=
  match d.callbacks_ point with
  | some cb =>
    (Status.in_callback cb, { d with num_callbacks_running_ := d.num_callbacks_running_ + 1 })
  | none => (Status.cleared, { d with cleared_points_ := insert point d.cleared_points_ })

/-- One evaluation of the loop test of line 113 and what follows it: `cv_.wait` when some
predecessor is not cleared, lines 120-129 otherwise. -/
def waitLoop (d : Data) (point : String) : Status × Data :=
  match PredecessorsAllCleared d point with
  | (false, d1) => (Status.waiting, d1)
  | (true, d1) => afterPredecessors d1 point

/-- The function `SyncPoint::Data::Process` from its call to the first release of the mutex
(lines 81-124). -/
def ProcessEnter (d : Data) (point : String) (thread_id : ThreadId) : Status × Data :=
  if !d.enabled_ then (Status.not_enabled, d)
  else
    let d1 := armMarkers d point thread_id
    if DisabledByMarker d1 point thread_id then (Status.disabled_by_marker, d1)
    else waitLoop d1 point

/-- The function `SyncPoint::Data::Process` from a wake-up inside `cv_.wait` (line 114) to the
next release of the mutex: the marker test of lines 115-117, then the loop test again. -/
def ProcessWake (d : Data) (point : String) (thread_id : ThreadId) : Status × Data :=
  if DisabledByMarker d point thread_id then (Status.disabled_by_marker, d)
  else waitLoop d point

/-- The function `SyncPoint::Data::Process` from the re-lock after the callback to the return
(lines 125-130). -/
def ProcessCallbackReturn (d : Data) (point : String) : Data :=
  { d with
    num_callbacks_running_ := d.num_callbacks_running_ - 1
    cleared_points_ := insert point d.cleared_points_ }

/-- What one `Process` call did: where it stands, the callback invocations it made (callback and
argument, in order), and the engine state it leaves. -/
structure Run where
  status : Status
  invoked : List (CallBack × CbArg)
  data : Data

/-- The function `SyncPoint::Data::Process(point, cb_arg)` called by thread `thread_id`, run
until it returns or blocks in `cv_.wait`, with no other thread acting while the callback (which
does not call into the engine) runs. -/
def Process (d : Data) (point : String) (cb_arg : CbArg) (thread_id : ThreadId) : Run :=
  match ProcessEnter d point thread_id with
  | (Status.in_callback cb, d1) =>
    { status := Status.cleared, invoked := [(cb, cb_arg)], data := ProcessCallbackReturn d1 point }
  | (st, d1) => { status := st, invoked := [], data := d1 }

/-- A blocked `Process(point, cb_arg)` call of thread `thread_id`, woken inside `cv_.wait` and
run until it returns or blocks again. -/
def ProcessResume (d : Data) (point : String) (cb_arg : CbArg) (thread_id : ThreadId) : Run :=
  match ProcessWake d point thread_id with
  | (Status.in_callback cb, d1) =>
    { status := Status.cleared, invoked := [(cb, cb_arg)], data := ProcessCallbackReturn d1 point }
  | (st, d1) => { status := st, invoked := [], data := d1 }

/-- The vector stored under a key, empty when the key has no entry. -/
def listAt (m : StrMap (List String)) (key : String) : List String := (m key).getD []

/-! ## The specification's description of the two indexes -/

/-- The successors of the pairs of `edges` whose predecessor is `a`, in input order. -/
def successorsOf (edges : List SyncPointPair) (a : String) : List String :=
  (edges.filter (fun e => e.predecessor = a)).map (fun e => e.successor)

/-- The predecessors of the pairs of `edges` whose successor is `b`, in input order. -/
def predecessorsOf (edges : List SyncPointPair) (b : String) : List String :=
  (edges.filter (fun e => e.successor = b)).map (fun e => e.predecessor)

/-- The values `g e` of the pairs `e` of `edges` with key `f e = a`, in input order
(`successorsOf` and `predecessorsOf` are its two instances). -/
def selected (f g : SyncPointPair → String) (edges : List SyncPointPair) (a : String) :
    List String :=
  (edges.filter (fun e => f e = a)).map g

/-- An index as the specification describes it: the entry of `a` is the list `l` of its
neighbours, and a name with no neighbour has no entry. -/
def indexEntry (l : List String) : Option (List String) := if l = [] then none else some l

/-! ## The engine shared by several threads

Each thread is either outside `Process` or inside one `Process` call at one of its two unlocked
places.  An action is one section run under the mutex: the sections of `Process`, or a whole
call of one of the other member functions.  A waiter may be woken at any time (`cv_.wait` may
return spuriously, and every `notify_all` wakes all waiters).  Callbacks do not call into the
engine. -/

/-- Where a thread stands. -/
inductive Pc where
  /-- Outside `Process`. -/
  | idle
  /-- Inside `cv_.wait` of `Process(point, cb_arg)`. -/
  | waiting (point : String) (cb_arg : CbArg)
  /-- Inside the callback `cb` invoked by `Process(point, cb_arg)`. -/
  | in_callback (point : String) (cb : CallBack) (cb_arg : CbArg)
deriving DecidableEq

/-- One section under the mutex. -/
inductive Action where
  | call (thread_id : ThreadId) (point : String) (cb_arg : CbArg)
  | wake (thread_id : ThreadId)
  | callback_return (thread_id : ThreadId)
  | load_dependency (dependencies : List SyncPointPair)
  | load_dependency_and_markers (dependencies markers : List SyncPointPair)
  | set_callback (point : String) (callback : CallBack)
  | clear_callback (point : String)
  | clear_all_callbacks
  | enable_processing
  | disable_processing
  | clear_trace
deriving DecidableEq

/-- The engine record together with the place of every thread and the callback invocations made
so far (thread, callback, argument), oldest first. -/
structure Engine where
  data : Data
  pc : ThreadId → Pc
  invoked : List (ThreadId × CallBack × CbArg)

/-- The place of a thread whose `Process(point, cb_arg)` call has reached `st`. -/
def Pc.after (st : Status) (point : String) (cb_arg : CbArg) : Pc :=
  match st with
  | Status.waiting => Pc.waiting point cb_arg
  | Status.in_callback cb => Pc.in_callback point cb cb_arg
  | _ => Pc.idle

/-- The invocation a section of `Process` ends with, if it ends at line 124. -/
def invocationOf (st : Status) (thread_id : ThreadId) (cb_arg : CbArg) :
    List (ThreadId × CallBack × CbArg) :=
  match st with
  | Status.in_callback cb => [(thread_id, cb, cb_arg)]
  | _ => []

/-- The engine after a section of `Process(point, cb_arg)` of thread `thread_id` that ended in
`r`. -/
def Engine.advance (e : Engine) (thread_id : ThreadId) (point : String) (cb_arg : CbArg)
    (r : Status × Data) : Engine :=
  { data := r.2
    pc := Function.update e.pc thread_id (Pc.after r.1 point cb_arg)
    invoked := e.invoked ++ invocationOf r.1 thread_id cb_arg }

/-- One action, `none` when it cannot take place: a thread calls `Process` only from outside it,
is woken only inside `cv_.wait`, returns from a callback only inside one, and `ClearCallBack` and
`ClearAllCallBacks` complete only when they get past their wait loop. -/
def Engine.step (e : Engine) : Action → Option Engine
  | Action.call thread_id point cb_arg =>
    match e.pc thread_id with
    | Pc.idle => some (e.advance thread_id point cb_arg (ProcessEnter e.data point thread_id))
    | _ => none
  | Action.wake thread_id =>
    match e.pc thread_id with
    | Pc.waiting point cb_arg =>
      some (e.advance thread_id point cb_arg (ProcessWake e.data point thread_id))
    | _ => none
  | Action.callback_return thread_id =>
    match e.pc thread_id with
    | Pc.in_callback point _ _ =>
      some { e with
        data := ProcessCallbackReturn e.data point
        pc := Function.update e.pc thread_id Pc.idle }
    | _ => none
  | Action.load_dependency dependencies =>
    some { e with data := LoadDependency e.data dependencies }
  | Action.load_dependency_and_markers dependencies markers =>
    some { e with data := LoadDependencyAndMarkers e.data dependencies markers }
  | Action.set_callback point callback => some { e with data := SetCallBack e.data point callback }
  | Action.clear_callback point => (ClearCallBack e.data point).map (fun d => { e with data := d })
  | Action.clear_all_callbacks => (ClearAllCallBacks e.data).map (fun d => { e with data := d })
  | Action.enable_processing => some { e with data := EnableProcessing e.data }
  | Action.disable_processing => some { e with data := DisableProcessing e.data }
  | Action.clear_trace => some { e with data := ClearTrace e.data }

/-- A sequence of actions, one after the other. -/
def Engine.run (e : Engine) : List Action → Option Engine
  | [] => some e
  | a :: rest => (e.step a).bind (fun e1 => e1.run rest)

/-- Whether an action is a `LoadDependencyAndMarkers` call. -/
def Action.loadsMarkers : Action → Bool
  | Action.load_dependency_and_markers _ _ => true
  | _ => false

/-- The engine at process start: the fresh record, every thread outside `Process`. -/
def Engine.init : Engine := { data := Data.init, pc := fun _ => Pc.idle, invoked := [] }

/-- Whether a thread is inside a callback, between the increment of line 122 and the decrement
of line 126. -/
def Pc.inCallback : Pc → Bool
  | Pc.in_callback _ _ _ => true
  | _ => false

/-- Whether an action is a section of a `Process` call. -/
def Action.isProcess : Action → Bool
  | Action.call _ _ _ => true
  | Action.wake _ => true
  | Action.callback_return _ => true
  | _ => false

/-- Whether an action is a load or a trace clear, the calls that empty `cleared_points_`. -/
def Action.isReset : Action → Bool
  | Action.load_dependency _ => true
  | Action.load_dependency_and_markers _ _ => true
  | Action.clear_trace => true
  | _ => false

/-- Whether an action is a `SetCallBack` call for `point`. -/
def Action.setsCallBack (point : String) : Action → Bool
  | Action.set_callback p _ => decide (p = point)
  | _ => false

/-- A cycle of the loaded dependency graph: a non-empty list of points in which every point is a
loaded predecessor of the next one, and the last one of the first (a single point with a
self-edge is a cycle of length one). -/
def isCycle (d : Data) (cycle : List String) : Prop :=
  cycle ≠ [] ∧ ∀ i, i < cycle.length →
    cycle.getD i "" ∈ listAt d.predecessors_ (cycle.getD ((i + 1) % cycle.length) "")

instance isCycle.decidable (d : Data) (cycle : List String) : Decidable (isCycle d cycle) := by
  unfold isCycle
  infer_instance

/-- The cleared set is closed under loaded predecessors. -/
def predecessorClosed (d : Data) : Prop :=
  ∀ point ∈ d.cleared_points_, ∀ pred ∈ listAt d.predecessors_ point, pred ∈ d.cleared_points_

/-- Whether, along the actions `acts` taken from `e`, every load and every trace clear is taken
in a state where no callback is running (`num_callbacks_running_` is zero).  Nothing is asked of
the other actions, and nothing of what other threads do while a callback runs. -/
def Engine.resetsQuiet (e : Engine) : List Action → Bool
  | [] => true
  | a :: rest =>
    (!a.isReset || decide (e.data.num_callbacks_running_ = 0))
      && (match e.step a with
          | some e1 => e1.resetsQuiet rest
          | none => true)

/-- The counter counts the threads inside a callback: the threads that stand inside one form a
finite set, and `num_callbacks_running_` is its size. -/
def counterCounts (e : Engine) : Prop :=
  ∃ S : Finset ThreadId, (∀ t, t ∈ S ↔ (e.pc t).inCallback = true)
    ∧ e.data.num_callbacks_running_ = (S.card : Int)

/-! ## Basic facts about the embedded functions -/

theorem allCleared_eq_true_iff (cleared : Finset String) (preds : List String) :
    allCleared cleared preds = true ↔ ∀ pred ∈ preds, pred ∈ cleared := by
  induction preds with
  | nil => simp [allCleared]
  | cons p rest ih =>
    by_cases hp : p ∈ cleared
    · simp [allCleared, hp, ih]
    · simp [allCleared, hp]

theorem allCleared_eq_false_iff (cleared : Finset String) (preds : List String) :
    allCleared cleared preds = false ↔ ∃ pred ∈ preds, pred ∉ cleared := by
  rw [← Bool.not_eq_true, allCleared_eq_true_iff]
  push_neg
  rfl

theorem PredecessorsAllCleared_fst (d : Data) (point : String) :
    (PredecessorsAllCleared d point).1
      = allCleared d.cleared_points_ (listAt d.predecessors_ point) := by
  simp [PredecessorsAllCleared, StrMap.subscript, listAt]

theorem PredecessorsAllCleared_snd (d : Data) (point : String) :
    (PredecessorsAllCleared d point).2
      = { d with predecessors_ := d.predecessors_.subscript point } := rfl

theorem armMarkers_eq (d : Data) (point : String) (thread_id : ThreadId) :
    armMarkers d point thread_id = armLoop thread_id d (listAt d.markers_ point) := by
  unfold armMarkers armLoop listAt
  cases d.markers_ point <;> rfl

theorem armLoop_frame (thread_id : ThreadId) (marked : List String) (d : Data) :
    armLoop thread_id d marked
      = { d with marked_thread_id_ := (armLoop thread_id d marked).marked_thread_id_ } := by
  induction marked generalizing d with
  | nil => rfl
  | cons m rest ih =>
    have h := ih { d with marked_thread_id_ := d.marked_thread_id_.emplace m thread_id }
    simp only [armLoop, List.foldl_cons] at h ⊢
    rw [h]

theorem armMarkers_frame (d : Data) (point : String) (thread_id : ThreadId) :
    armMarkers d point thread_id
      = { d with marked_thread_id_ := (armMarkers d point thread_id).marked_thread_id_ } := by
  rw [armMarkers_eq]
  exact armLoop_frame thread_id _ d

theorem armMarkers_cleared (d : Data) (point : String) (thread_id : ThreadId) :
    (armMarkers d point thread_id).cleared_points_ = d.cleared_points_ := by
  rw [armMarkers_frame]

theorem armMarkers_predecessors (d : Data) (point : String) (thread_id : ThreadId) :
    (armMarkers d point thread_id).predecessors_ = d.predecessors_ := by
  rw [armMarkers_frame]

theorem armMarkers_callbacks (d : Data) (point : String) (thread_id : ThreadId) :
    (armMarkers d point thread_id).callbacks_ = d.callbacks_ := by
  rw [armMarkers_frame]

theorem waitLoop_blocked (d : Data) (point : String)
    (h : ∃ pred ∈ listAt d.predecessors_ point, pred ∉ d.cleared_points_) :
    waitLoop d point
      = (Status.waiting, { d with predecessors_ := d.predecessors_.subscript point }) := by
  have h1 := PredecessorsAllCleared_fst d point
  rw [(allCleared_eq_false_iff _ _).mpr h] at h1
  have h2 := PredecessorsAllCleared_snd d point
  unfold waitLoop
  rw [show PredecessorsAllCleared d point
        = (false, { d with predecessors_ := d.predecessors_.subscript point }) from
      Prod.ext h1 h2]

theorem waitLoop_clear (d : Data) (point : String)
    (h : ∀ pred ∈ listAt d.predecessors_ point, pred ∈ d.cleared_points_) :
    waitLoop d point
      = afterPredecessors { d with predecessors_ := d.predecessors_.subscript point } point := by
  have h1 := PredecessorsAllCleared_fst d point
  rw [(allCleared_eq_true_iff _ _).mpr h] at h1
  have h2 := PredecessorsAllCleared_snd d point
  unfold waitLoop
  rw [show PredecessorsAllCleared d point
        = (true, { d with predecessors_ := d.predecessors_.subscript point }) from
      Prod.ext h1 h2]

theorem ProcessEnter_enabled (d : Data) (point : String) (thread_id : ThreadId)
    (henabled : d.enabled_ = true)
    (hmarker : DisabledByMarker (armMarkers d point thread_id) point thread_id = false) :
    ProcessEnter d point thread_id = waitLoop (armMarkers d point thread_id) point := by
  simp [ProcessEnter, henabled, hmarker]

theorem ProcessWake_enabled (d : Data) (point : String) (thread_id : ThreadId)
    (hmarker : DisabledByMarker d point thread_id = false) :
    ProcessWake d point thread_id = waitLoop d point := by
  simp [ProcessWake, hmarker]

theorem ProcessEnter_of_cleared_predecessors (d : Data) (point : String) (thread_id : ThreadId)
    (henabled : d.enabled_ = true)
    (hpred : ∀ pred ∈ listAt d.predecessors_ point, pred ∈ d.cleared_points_)
    (hmarker : DisabledByMarker (armMarkers d point thread_id) point thread_id = false) :
    ProcessEnter d point thread_id
      = afterPredecessors
          { armMarkers d point thread_id with
            predecessors_ := (armMarkers d point thread_id).predecessors_.subscript point }
          point := by
  have hpred1 : ∀ pred ∈ listAt (armMarkers d point thread_id).predecessors_ point,
      pred ∈ (armMarkers d point thread_id).cleared_points_ := by
    rw [armMarkers_predecessors, armMarkers_cleared]
    exact hpred
  rw [ProcessEnter_enabled d point thread_id henabled hmarker, waitLoop_clear _ _ hpred1]

/-! ### Frames of the sections of `Process` -/

theorem armLoop_marked_thread_id (thread_id : ThreadId) (marked : List String) (d : Data)
    (b : String) :
    (armLoop thread_id d marked).marked_thread_id_ b
      = if b ∈ marked then some ((d.marked_thread_id_ b).getD thread_id)
        else d.marked_thread_id_ b := by
  induction marked generalizing d with
  | nil => simp [armLoop]
  | cons m rest ih =>
    have h := ih { d with marked_thread_id_ := d.marked_thread_id_.emplace m thread_id }
    simp only [armLoop, List.foldl_cons] at h ⊢
    rw [h]
    by_cases hbm : b = m
    · subst hbm
      cases hd : d.marked_thread_id_ b <;> simp [StrMap.emplace, hd]
    · by_cases hbr : b ∈ rest <;> simp [StrMap.emplace, hbm, hbr]

theorem armMarkers_marked_thread_id (d : Data) (point : String) (thread_id : ThreadId)
    (b : String) :
    (armMarkers d point thread_id).marked_thread_id_ b
      = if b ∈ listAt d.markers_ point then some ((d.marked_thread_id_ b).getD thread_id)
        else d.marked_thread_id_ b := by
  rw [armMarkers_eq, armLoop_marked_thread_id]

/-- The members that the wait loop and what follows it leave alone. -/
theorem waitLoop_frame (d : Data) (point : String) :
    (waitLoop d point).2.successors_ = d.successors_
      ∧ (waitLoop d point).2.callbacks_ = d.callbacks_
      ∧ (waitLoop d point).2.markers_ = d.markers_
      ∧ (waitLoop d point).2.marked_thread_id_ = d.marked_thread_id_
      ∧ (waitLoop d point).2.enabled_ = d.enabled_ := by
  have h2 := PredecessorsAllCleared_snd d point
  unfold waitLoop
  rcases hp : PredecessorsAllCleared d point with ⟨ok, d1⟩
  rw [hp] at h2
  simp only at h2
  subst h2
  cases ok
  · simp
  · unfold afterPredecessors
    dsimp only
    split <;> simp

theorem ProcessWake_frame (d : Data) (point : String) (thread_id : ThreadId) :
    (ProcessWake d point thread_id).2.successors_ = d.successors_
      ∧ (ProcessWake d point thread_id).2.callbacks_ = d.callbacks_
      ∧ (ProcessWake d point thread_id).2.markers_ = d.markers_
      ∧ (ProcessWake d point thread_id).2.marked_thread_id_ = d.marked_thread_id_
      ∧ (ProcessWake d point thread_id).2.enabled_ = d.enabled_ := by
  unfold ProcessWake
  split
  · simp
  · exact waitLoop_frame d point

theorem ProcessEnter_frame (d : Data) (point : String) (thread_id : ThreadId) :
    (ProcessEnter d point thread_id).2.successors_ = d.successors_
      ∧ (ProcessEnter d point thread_id).2.callbacks_ = d.callbacks_
      ∧ (ProcessEnter d point thread_id).2.markers_ = d.markers_
      ∧ (ProcessEnter d point thread_id).2.marked_thread_id_
          = (if d.enabled_ then (armMarkers d point thread_id).marked_thread_id_
             else d.marked_thread_id_)
      ∧ (ProcessEnter d point thread_id).2.enabled_ = d.enabled_ := by
  have harm := armMarkers_frame d point thread_id
  unfold ProcessEnter
  cases henabled : d.enabled_ with
  | false => simp [henabled]
  | true =>
    simp only [Bool.not_true, Bool.false_eq_true, if_false, if_true]
    split
    · rw [harm]
      simp [henabled]
    · obtain ⟨h1, h2, h3, h4, h5⟩ := waitLoop_frame (armMarkers d point thread_id) point
      rw [h1, h2, h3, h4, h5, harm]
      simp [henabled]

theorem Process_data (d : Data) (point : String) (cb_arg : CbArg) (thread_id : ThreadId) :
    (Process d point cb_arg thread_id).data = (ProcessEnter d point thread_id).2
      ∨ (Process d point cb_arg thread_id).data
          = ProcessCallbackReturn (ProcessEnter d point thread_id).2 point := by
  unfold Process
  split
  · next h =>
    right
    rw [h]
  · next h =>
    left
    rw [h]

theorem Process_frame (d : Data) (point : String) (cb_arg : CbArg) (thread_id : ThreadId) :
    (Process d point cb_arg thread_id).data.successors_ = d.successors_
      ∧ (Process d point cb_arg thread_id).data.callbacks_ = d.callbacks_
      ∧ (Process d point cb_arg thread_id).data.markers_ = d.markers_
      ∧ (Process d point cb_arg thread_id).data.marked_thread_id_
          = (if d.enabled_ then (armMarkers d point thread_id).marked_thread_id_
             else d.marked_thread_id_)
      ∧ (Process d point cb_arg thread_id).data.enabled_ = d.enabled_ := by
  rcases Process_data d point cb_arg thread_id with h | h
  · rw [h]
    exact ProcessEnter_frame d point thread_id
  · rw [h]
    exact ProcessEnter_frame d point thread_id

/-! ### Loading -/

theorem foldl_push_back (f g : SyncPointPair → String) (edges : List SyncPointPair)
    (m : StrMap (List String)) (a : String) :
    (edges.foldl (fun acc e => acc.push_back (f e) (g e)) m) a
      = if selected f g edges a = [] then m a
        else some ((m a).getD [] ++ selected f g edges a) := by
  induction edges generalizing m with
  | nil => simp [selected]
  | cons e rest ih =>
    rw [List.foldl_cons, ih]
    by_cases h : f e = a
    · have hs : selected f g (e :: rest) a = g e :: selected f g rest a := by
        simp [selected, h]
      subst h
      rw [hs]
      by_cases hr : selected f g rest (f e) = []
      · simp [hr, StrMap.push_back]
      · simp [hr, StrMap.push_back]
    · have hs : selected f g (e :: rest) a = selected f g rest a := by
        simp [selected, h]
      have ha : a ≠ f e := fun h1 => h h1.symm
      rw [hs]
      simp [StrMap.push_back, ha]

theorem selected_append (f g : SyncPointPair → String) (xs ys : List SyncPointPair)
    (a : String) : selected f g (xs ++ ys) a = selected f g xs a ++ selected f g ys a := by
  simp [selected]

/-- The record after the loop over `dependencies`, field by field. -/
theorem foldl_addDependency (dependencies : List SyncPointPair) (d : Data) :
    dependencies.foldl addDependency d
      = { d with
          successors_ := dependencies.foldl
            (fun acc e => acc.push_back e.predecessor e.successor) d.successors_
          predecessors_ := dependencies.foldl
            (fun acc e => acc.push_back e.successor e.predecessor) d.predecessors_ } := by
  induction dependencies generalizing d with
  | nil => rfl
  | cons e rest ih =>
    rw [List.foldl_cons, ih]
    rfl

/-- The record after the loop over `markers`, field by field. -/
theorem foldl_addMarker (markers : List SyncPointPair) (d : Data) :
    markers.foldl addMarker d
      = { d with
          successors_ := markers.foldl
            (fun acc e => acc.push_back e.predecessor e.successor) d.successors_
          predecessors_ := markers.foldl
            (fun acc e => acc.push_back e.successor e.predecessor) d.predecessors_
          markers_ := markers.foldl
            (fun acc e => acc.push_back e.predecessor e.successor) d.markers_ } := by
  induction markers generalizing d with
  | nil => rfl
  | cons e rest ih =>
    rw [List.foldl_cons, ih]
    rfl

theorem indexEntry_getD (l : List String) : (indexEntry l).getD [] = l := by
  unfold indexEntry
  split <;> simp_all

theorem LoadDependency_successors (d : Data) (dependencies : List SyncPointPair) (a : String) :
    (LoadDependency d dependencies).successors_ a = indexEntry (successorsOf dependencies a) := by
  unfold LoadDependency
  rw [foldl_addDependency]
  simp only [foldl_push_back]
  simp [StrMap.clear, indexEntry, successorsOf, selected]

theorem LoadDependency_predecessors (d : Data) (dependencies : List SyncPointPair) (b : String) :
    (LoadDependency d dependencies).predecessors_ b
      = indexEntry (predecessorsOf dependencies b) := by
  unfold LoadDependency
  rw [foldl_addDependency]
  simp only [foldl_push_back]
  simp [StrMap.clear, indexEntry, predecessorsOf, selected]

theorem LoadDependency_frame (d : Data) (dependencies : List SyncPointPair) :
    LoadDependency d dependencies
      = { d with
          successors_ := (LoadDependency d dependencies).successors_
          predecessors_ := (LoadDependency d dependencies).predecessors_
          cleared_points_ := ∅ } := by
  unfold LoadDependency
  rw [foldl_addDependency]

theorem LoadDependencyAndMarkers_successors (d : Data) (dependencies markers : List SyncPointPair)
    (a : String) :
    (LoadDependencyAndMarkers d dependencies markers).successors_ a
      = indexEntry (successorsOf (dependencies ++ markers) a) := by
  unfold LoadDependencyAndMarkers
  rw [foldl_addMarker, foldl_addDependency]
  simp only [foldl_push_back]
  have happ := selected_append (fun e => e.predecessor) (fun e => e.successor)
    dependencies markers a
  simp only [successorsOf, indexEntry, StrMap.clear]
  change _ = if selected (fun e => e.predecessor) (fun e => e.successor)
      (dependencies ++ markers) a = [] then none
    else some (selected (fun e => e.predecessor) (fun e => e.successor)
      (dependencies ++ markers) a)
  rw [happ]
  by_cases h1 : selected (fun e => e.predecessor) (fun e => e.successor) dependencies a = [] <;>
    by_cases h2 : selected (fun e => e.predecessor) (fun e => e.successor) markers a = [] <;>
    simp [h1, h2]

theorem LoadDependencyAndMarkers_predecessors (d : Data)
    (dependencies markers : List SyncPointPair) (b : String) :
    (LoadDependencyAndMarkers d dependencies markers).predecessors_ b
      = indexEntry (predecessorsOf (dependencies ++ markers) b) := by
  unfold LoadDependencyAndMarkers
  rw [foldl_addMarker, foldl_addDependency]
  simp only [foldl_push_back]
  have happ := selected_append (fun e => e.successor) (fun e => e.predecessor)
    dependencies markers b
  simp only [predecessorsOf, indexEntry, StrMap.clear]
  change _ = if selected (fun e => e.successor) (fun e => e.predecessor)
      (dependencies ++ markers) b = [] then none
    else some (selected (fun e => e.successor) (fun e => e.predecessor)
      (dependencies ++ markers) b)
  rw [happ]
  by_cases h1 : selected (fun e => e.successor) (fun e => e.predecessor) dependencies b = [] <;>
    by_cases h2 : selected (fun e => e.successor) (fun e => e.predecessor) markers b = [] <;>
    simp [h1, h2]

theorem LoadDependencyAndMarkers_markers (d : Data) (dependencies markers : List SyncPointPair)
    (a : String) :
    (LoadDependencyAndMarkers d dependencies markers).markers_ a
      = indexEntry (successorsOf markers a) := by
  unfold LoadDependencyAndMarkers
  rw [foldl_addMarker, foldl_addDependency]
  simp only [foldl_push_back]
  simp [StrMap.clear, indexEntry, successorsOf, selected]

theorem LoadDependencyAndMarkers_marked_thread_id (d : Data)
    (dependencies markers : List SyncPointPair) :
    (LoadDependencyAndMarkers d dependencies markers).marked_thread_id_ = StrMap.clear := by
  unfold LoadDependencyAndMarkers
  rw [foldl_addMarker, foldl_addDependency]

theorem LoadDependencyAndMarkers_cleared (d : Data)
    (dependencies markers : List SyncPointPair) :
    (LoadDependencyAndMarkers d dependencies markers).cleared_points_ = ∅ := by
  unfold LoadDependencyAndMarkers
  rw [foldl_addMarker, foldl_addDependency]

theorem count_successorsOf (edges : List SyncPointPair) (a b : String) :
    List.count b (successorsOf edges a) = List.count a (predecessorsOf edges b) := by
  induction edges with
  | nil => rfl
  | cons e rest ih =>
    unfold successorsOf predecessorsOf at ih ⊢
    by_cases h1 : e.predecessor = a <;> by_cases h2 : e.successor = b <;>
      simp [List.filter_cons, h1, h2, List.count_cons, ih]

/-! ### The marker state along a run -/

theorem LoadDependency_markers (d : Data) (dependencies : List SyncPointPair) :
    (LoadDependency d dependencies).markers_ = d.markers_
      ∧ (LoadDependency d dependencies).marked_thread_id_ = d.marked_thread_id_ := by
  rw [LoadDependency_frame]
  exact ⟨rfl, rfl⟩

theorem ClearCallBack_markers (d d1 : Data) (point : String)
    (h : ClearCallBack d point = some d1) :
    d1.markers_ = d.markers_ ∧ d1.marked_thread_id_ = d.marked_thread_id_ := by
  unfold ClearCallBack at h
  split at h
  · cases h
  · cases h
    exact ⟨rfl, rfl⟩

theorem ClearAllCallBacks_markers (d d1 : Data) (h : ClearAllCallBacks d = some d1) :
    d1.markers_ = d.markers_ ∧ d1.marked_thread_id_ = d.marked_thread_id_ := by
  unfold ClearAllCallBacks at h
  split at h
  · cases h
  · cases h
    exact ⟨rfl, rfl⟩

/-- One action other than `LoadDependencyAndMarkers` keeps the marker table, and changes the
thread recorded for a point `b` only when it is a `Process(point)` call on a marker predecessor
of `b` while no thread is recorded for `b`; the caller is then recorded. -/
theorem step_marker_state (e e1 : Engine) (a : Action) (b : String)
    (hstep : e.step a = some e1) (hload : a.loadsMarkers = false) :
    e1.data.markers_ = e.data.markers_
      ∧ (e1.data.marked_thread_id_ b = e.data.marked_thread_id_ b
          ∨ ∃ thread_id point cb_arg, a = Action.call thread_id point cb_arg
              ∧ b ∈ listAt e.data.markers_ point
              ∧ e.data.marked_thread_id_ b = none
              ∧ e1.data.marked_thread_id_ b = some thread_id) := by
  cases a with
  | call thread_id point cb_arg =>
    simp only [Engine.step] at hstep
    cases hpc : e.pc thread_id with
    | idle =>
      rw [hpc] at hstep
      simp only [Option.some.injEq] at hstep
      subst hstep
      obtain ⟨_, _, hm, ht, _⟩ := ProcessEnter_frame e.data point thread_id
      refine ⟨hm, ?_⟩
      simp only [Engine.advance]
      rw [ht]
      cases henabled : e.data.enabled_ with
      | false => left; simp
      | true =>
        simp only [if_true]
        rw [armMarkers_marked_thread_id]
        by_cases hb : b ∈ listAt e.data.markers_ point
        · rw [if_pos hb]
          cases hrec : e.data.marked_thread_id_ b with
          | none => right; exact ⟨thread_id, point, cb_arg, rfl, hb, rfl, rfl⟩
          | some earlier => left; rfl
        · rw [if_neg hb]
          left; rfl
    | waiting p1 a1 =>
      rw [hpc] at hstep
      cases hstep
    | in_callback p1 c1 a1 =>
      rw [hpc] at hstep
      cases hstep
  | wake thread_id =>
    simp only [Engine.step] at hstep
    cases hpc : e.pc thread_id with
    | idle =>
      rw [hpc] at hstep
      cases hstep
    | waiting point cb_arg =>
      rw [hpc] at hstep
      simp only [Option.some.injEq] at hstep
      subst hstep
      obtain ⟨_, _, hm, ht, _⟩ := ProcessWake_frame e.data point thread_id
      refine ⟨hm, Or.inl ?_⟩
      simp only [Engine.advance]
      rw [ht]
    | in_callback p1 c1 a1 =>
      rw [hpc] at hstep
      cases hstep
  | callback_return thread_id =>
    simp only [Engine.step] at hstep
    cases hpc : e.pc thread_id with
    | idle =>
      rw [hpc] at hstep
      cases hstep
    | waiting p1 a1 =>
      rw [hpc] at hstep
      cases hstep
    | in_callback point cb cb_arg =>
      rw [hpc] at hstep
      simp only [Option.some.injEq] at hstep
      subst hstep
      exact ⟨rfl, Or.inl rfl⟩
  | load_dependency dependencies =>
    cases hstep
    obtain ⟨hm, ht⟩ := LoadDependency_markers e.data dependencies
    exact ⟨hm, Or.inl (by simp only [ht])⟩
  | load_dependency_and_markers dependencies markers => cases hload
  | set_callback point callback =>
    cases hstep
    exact ⟨rfl, Or.inl rfl⟩
  | clear_callback point =>
    simp only [Engine.step, Option.map_eq_some'] at hstep
    obtain ⟨d1, hd1, rfl⟩ := hstep
    obtain ⟨hm, ht⟩ := ClearCallBack_markers e.data d1 point hd1
    exact ⟨hm, Or.inl (by simp only [ht])⟩
  | clear_all_callbacks =>
    simp only [Engine.step, Option.map_eq_some'] at hstep
    obtain ⟨d1, hd1, rfl⟩ := hstep
    obtain ⟨hm, ht⟩ := ClearAllCallBacks_markers e.data d1 hd1
    exact ⟨hm, Or.inl (by simp only [ht])⟩
  | enable_processing =>
    cases hstep
    exact ⟨rfl, Or.inl rfl⟩
  | disable_processing =>
    cases hstep
    exact ⟨rfl, Or.inl rfl⟩
  | clear_trace =>
    cases hstep
    exact ⟨rfl, Or.inl rfl⟩

/-- Along a run without `LoadDependencyAndMarkers`, in which thread `T` never calls `Process(A)`
and `A` is the only marker predecessor of `B`, thread `T` is never recorded for `B`. -/
theorem run_never_records (A B : String) (T : ThreadId) (acts : List Action) (e e1 : Engine)
    (hrun : e.run acts = some e1)
    (hload : ∀ a ∈ acts, a.loadsMarkers = false)
    (hnever : ∀ cb_arg, Action.call T A cb_arg ∉ acts)
    (honly : ∀ a, B ∈ listAt e.data.markers_ a → a = A)
    (hstart : e.data.marked_thread_id_ B ≠ some T) :
    e1.data.marked_thread_id_ B ≠ some T := by
  induction acts generalizing e with
  | nil =>
    cases hrun
    exact hstart
  | cons a rest ih =>
    simp only [Engine.run, Option.bind_eq_some] at hrun
    obtain ⟨e2, hstep, hrest⟩ := hrun
    obtain ⟨hm, ht⟩ := step_marker_state e e2 a B hstep (hload a (List.mem_cons_self a rest))
    apply ih e2 hrest
    · intro a1 ha1
      exact hload a1 (List.mem_cons_of_mem a ha1)
    · intro cb_arg hmem
      exact hnever cb_arg (List.mem_cons_of_mem a hmem)
    · rw [hm]
      exact honly
    · rcases ht with ht | ⟨thread_id, point, cb_arg, ha, hb, _, hrec⟩
      · rw [ht]
        exact hstart
      · rw [hrec]
        intro hsame
        have hT : thread_id = T := Option.some.inj hsame
        have hA : point = A := honly point hb
        subst hT hA ha
        exact hnever cb_arg (List.mem_cons_self _ rest)

theorem Process_of_other_thread_recorded (d : Data) (point : String) (cb_arg : CbArg)
    (thread_id authorized : ThreadId) (henabled : d.enabled_ = true)
    (hrecorded : (armMarkers d point thread_id).marked_thread_id_ point = some authorized)
    (hother : authorized ≠ thread_id) :
    Process d point cb_arg thread_id
      = { status := Status.disabled_by_marker, invoked := [],
          data := armMarkers d point thread_id } := by
  have hne : ¬ thread_id = authorized := fun h => hother h.symm
  have hdis : DisabledByMarker (armMarkers d point thread_id) point thread_id = true := by
    simp [DisabledByMarker, hrecorded, hne]
  simp [Process, ProcessEnter, henabled, hdis]

theorem mem_successorsOf (edges : List SyncPointPair) (a b : String) :
    b ∈ successorsOf edges a ↔ ∃ e ∈ edges, e.predecessor = a ∧ e.successor = b := by
  simp [successorsOf, and_assoc]

theorem mem_predecessorsOf (edges : List SyncPointPair) (a b : String) :
    a ∈ predecessorsOf edges b ↔ ∃ e ∈ edges, e.predecessor = a ∧ e.successor = b := by
  simp only [predecessorsOf, List.mem_map, List.mem_filter, decide_eq_true_eq]
  constructor
  · rintro ⟨e, ⟨he, hs⟩, hp⟩
    exact ⟨e, he, hp, hs⟩
  · rintro ⟨e, he, hp, hs⟩
    exact ⟨e, ⟨he, hs⟩, hp⟩

/-! ### The outcomes of a section of `Process` -/

theorem ProcessEnter_not_enabled (d : Data) (point : String) (thread_id : ThreadId)
    (h : d.enabled_ = false) : ProcessEnter d point thread_id = (Status.not_enabled, d) := by
  simp [ProcessEnter, h]

theorem ProcessEnter_eq_wake (d : Data) (point : String) (thread_id : ThreadId)
    (h : d.enabled_ = true) :
    ProcessEnter d point thread_id
      = ProcessWake (armMarkers d point thread_id) point thread_id := by
  simp [ProcessEnter, ProcessWake, h]

/-- The four ways a section that starts at the marker test can end. -/
theorem ProcessWake_cases (d : Data) (point : String) (thread_id : ThreadId) :
    ProcessWake d point thread_id = (Status.disabled_by_marker, d)
      ∨ ((∃ pred ∈ listAt d.predecessors_ point, pred ∉ d.cleared_points_)
          ∧ ProcessWake d point thread_id
            = (Status.waiting, { d with predecessors_ := d.predecessors_.subscript point }))
      ∨ ((∀ pred ∈ listAt d.predecessors_ point, pred ∈ d.cleared_points_)
          ∧ ∃ cb, d.callbacks_ point = some cb
            ∧ ProcessWake d point thread_id
              = (Status.in_callback cb,
                  { d with
                    predecessors_ := d.predecessors_.subscript point
                    num_callbacks_running_ := d.num_callbacks_running_ + 1 }))
      ∨ ((∀ pred ∈ listAt d.predecessors_ point, pred ∈ d.cleared_points_)
          ∧ d.callbacks_ point = none
          ∧ ProcessWake d point thread_id
            = (Status.cleared,
                { d with
                  predecessors_ := d.predecessors_.subscript point
                  cleared_points_ := insert point d.cleared_points_ })) := by
  cases hdis : DisabledByMarker d point thread_id with
  | true =>
    left
    simp [ProcessWake, hdis]
  | false =>
    right
    rw [ProcessWake_enabled d point thread_id hdis]
    by_cases hall : ∀ pred ∈ listAt d.predecessors_ point, pred ∈ d.cleared_points_
    · right
      rw [waitLoop_clear d point hall]
      unfold afterPredecessors
      cases hcb : d.callbacks_ point with
      | none =>
        right
        exact ⟨hall, rfl, by simp [hcb]⟩
      | some cb =>
        left
        exact ⟨hall, cb, rfl, by simp [hcb]⟩
    · left
      have hsome : ∃ pred ∈ listAt d.predecessors_ point, pred ∉ d.cleared_points_ := by
        push_neg at hall
        exact hall
      exact ⟨hsome, waitLoop_blocked d point hsome⟩

theorem listAt_subscript (m : StrMap (List String)) (key k : String) :
    listAt (m.subscript key) k = listAt m k := by
  unfold listAt StrMap.subscript
  by_cases h : k = key
  · subst h
    simp
  · simp [h]

theorem subscript_apply (m : StrMap (List String)) (key k : String) :
    m.subscript key k = m k ∨ (k = key ∧ m k = none ∧ m.subscript key k = some []) := by
  unfold StrMap.subscript
  by_cases h : k = key
  · subst h
    cases hm : m k with
    | none => right; simp
    | some l => left; simp
  · left
    simp [h]

theorem LoadDependencyAndMarkers_frame (d : Data) (dependencies markers : List SyncPointPair) :
    LoadDependencyAndMarkers d dependencies markers
      = { d with
          successors_ := (LoadDependencyAndMarkers d dependencies markers).successors_
          predecessors_ := (LoadDependencyAndMarkers d dependencies markers).predecessors_
          markers_ := (LoadDependencyAndMarkers d dependencies markers).markers_
          marked_thread_id_ := StrMap.clear
          cleared_points_ := ∅ } := by
  unfold LoadDependencyAndMarkers
  rw [foldl_addMarker, foldl_addDependency]

/-- The ways a woken call run to its return or to its next wait can end. -/
theorem ProcessResume_cases (d : Data) (point : String) (cb_arg : CbArg) (thread_id : ThreadId) :
    ProcessResume d point cb_arg thread_id
        = { status := Status.disabled_by_marker, invoked := [], data := d }
      ∨ ((∃ pred ∈ listAt d.predecessors_ point, pred ∉ d.cleared_points_)
          ∧ ProcessResume d point cb_arg thread_id
            = { status := Status.waiting, invoked := [],
                data := { d with predecessors_ := d.predecessors_.subscript point } })
      ∨ ((∀ pred ∈ listAt d.predecessors_ point, pred ∈ d.cleared_points_)
          ∧ ProcessResume d point cb_arg thread_id
            = { status := Status.cleared,
                invoked := (match d.callbacks_ point with
                            | some cb => [(cb, cb_arg)]
                            | none => []),
                data := { d with
                  predecessors_ := d.predecessors_.subscript point
                  cleared_points_ := insert point d.cleared_points_ } }) := by
  rcases ProcessWake_cases d point thread_id with h | ⟨hp, h⟩ | ⟨hp, cb, hcb, h⟩ | ⟨hp, hcb, h⟩
  · left
    unfold ProcessResume
    rw [h]
  · right; left
    refine ⟨hp, ?_⟩
    unfold ProcessResume
    rw [h]
  · right; right
    refine ⟨hp, ?_⟩
    unfold ProcessResume
    rw [h, hcb]
    simp [ProcessCallbackReturn]
  · right; right
    refine ⟨hp, ?_⟩
    unfold ProcessResume
    rw [h, hcb]

theorem Process_not_enabled (d : Data) (point : String) (cb_arg : CbArg) (thread_id : ThreadId)
    (h : d.enabled_ = false) :
    Process d point cb_arg thread_id
      = { status := Status.not_enabled, invoked := [], data := d } := by
  simp [Process, ProcessEnter, h]

theorem Process_eq_resume (d : Data) (point : String) (cb_arg : CbArg) (thread_id : ThreadId)
    (h : d.enabled_ = true) :
    Process d point cb_arg thread_id
      = ProcessResume (armMarkers d point thread_id) point cb_arg thread_id := by
  unfold Process ProcessResume
  rw [ProcessEnter_eq_wake d point thread_id h]

/-- What a woken call, run to its return or its next wait, may change: it adds at most `point`
to the cleared set and at most an empty predecessor entry for `point`. -/
theorem ProcessResume_frame (d : Data) (point : String) (cb_arg : CbArg)
    (thread_id : ThreadId) :
    d.cleared_points_ ⊆ (ProcessResume d point cb_arg thread_id).data.cleared_points_
      ∧ (ProcessResume d point cb_arg thread_id).data.cleared_points_
          ⊆ insert point d.cleared_points_
      ∧ (ProcessResume d point cb_arg thread_id).data.successors_ = d.successors_
      ∧ (∀ k, listAt (ProcessResume d point cb_arg thread_id).data.predecessors_ k
            = listAt d.predecessors_ k)
      ∧ (∀ k, (ProcessResume d point cb_arg thread_id).data.predecessors_ k = d.predecessors_ k
            ∨ (k = point ∧ d.predecessors_ k = none
                ∧ (ProcessResume d point cb_arg thread_id).data.predecessors_ k = some []))
      ∧ (ProcessResume d point cb_arg thread_id).data.markers_ = d.markers_
      ∧ (ProcessResume d point cb_arg thread_id).data.callbacks_ = d.callbacks_
      ∧ (ProcessResume d point cb_arg thread_id).data.enabled_ = d.enabled_
      ∧ (ProcessResume d point cb_arg thread_id).data.num_callbacks_running_
          = d.num_callbacks_running_
      ∧ (ProcessResume d point cb_arg thread_id).data.marked_thread_id_
          = d.marked_thread_id_ := by
  rcases ProcessResume_cases d point cb_arg thread_id with h | ⟨_, h⟩ | ⟨_, h⟩
  · rw [h]
    exact ⟨Finset.Subset.refl _, Finset.subset_insert _ _, rfl, fun _ => rfl,
      fun _ => Or.inl rfl, rfl, rfl, rfl, rfl, rfl⟩
  · rw [h]
    exact ⟨Finset.Subset.refl _, Finset.subset_insert _ _, rfl,
      fun k => listAt_subscript _ _ k, fun k => subscript_apply _ _ k, rfl, rfl, rfl, rfl, rfl⟩
  · rw [h]
    exact ⟨Finset.subset_insert _ _, Finset.Subset.refl _, rfl,
      fun k => listAt_subscript _ _ k, fun k => subscript_apply _ _ k, rfl, rfl, rfl, rfl, rfl⟩

theorem armMarkers_fields (d : Data) (point : String) (thread_id : ThreadId) :
    (armMarkers d point thread_id).successors_ = d.successors_
      ∧ (armMarkers d point thread_id).markers_ = d.markers_
      ∧ (armMarkers d point thread_id).enabled_ = d.enabled_
      ∧ (armMarkers d point thread_id).num_callbacks_running_ = d.num_callbacks_running_ := by
  rw [armMarkers_frame]
  exact ⟨rfl, rfl, rfl, rfl⟩

/-! ### The callback registry along a run -/

theorem ProcessResume_invoked_none (d : Data) (point : String) (cb_arg : CbArg)
    (thread_id : ThreadId) (h : d.callbacks_ point = none) :
    (ProcessResume d point cb_arg thread_id).invoked = [] := by
  rcases ProcessResume_cases d point cb_arg thread_id with h1 | ⟨_, h1⟩ | ⟨_, h1⟩
  · rw [h1]
  · rw [h1]
  · rw [h1, h]

theorem Process_invoked_none (d : Data) (point : String) (cb_arg : CbArg)
    (thread_id : ThreadId) (h : d.callbacks_ point = none) :
    (Process d point cb_arg thread_id).invoked = [] := by
  rcases Bool.eq_false_or_eq_true d.enabled_ with henabled | henabled
  · rw [Process_eq_resume d point cb_arg thread_id henabled]
    apply ProcessResume_invoked_none
    rw [armMarkers_callbacks]
    exact h
  · rw [Process_not_enabled d point cb_arg thread_id henabled]

/-- An action other than `SetCallBack(point)` leaves a point without a callback without one. -/
theorem step_callbacks_none (e e1 : Engine) (a : Action) (point : String)
    (hstep : e.step a = some e1) (hset : a.setsCallBack point = false)
    (h : e.data.callbacks_ point = none) : e1.data.callbacks_ point = none := by
  cases a with
  | call thread_id p cb_arg =>
    simp only [Engine.step] at hstep
    cases hpc : e.pc thread_id with
    | idle =>
      rw [hpc] at hstep
      simp only [Option.some.injEq] at hstep
      subst hstep
      simp only [Engine.advance]
      rw [(ProcessEnter_frame e.data p thread_id).2.1]
      exact h
    | waiting p1 a1 =>
      rw [hpc] at hstep
      cases hstep
    | in_callback p1 c1 a1 =>
      rw [hpc] at hstep
      cases hstep
  | wake thread_id =>
    simp only [Engine.step] at hstep
    cases hpc : e.pc thread_id with
    | idle =>
      rw [hpc] at hstep
      cases hstep
    | waiting p cb_arg =>
      rw [hpc] at hstep
      simp only [Option.some.injEq] at hstep
      subst hstep
      simp only [Engine.advance]
      rw [(ProcessWake_frame e.data p thread_id).2.1]
      exact h
    | in_callback p1 c1 a1 =>
      rw [hpc] at hstep
      cases hstep
  | callback_return thread_id =>
    simp only [Engine.step] at hstep
    cases hpc : e.pc thread_id with
    | idle =>
      rw [hpc] at hstep
      cases hstep
    | waiting p1 a1 =>
      rw [hpc] at hstep
      cases hstep
    | in_callback p cb cb_arg =>
      rw [hpc] at hstep
      simp only [Option.some.injEq] at hstep
      subst hstep
      exact h
  | load_dependency dependencies =>
    cases hstep
    simp only
    rw [LoadDependency_frame]
    exact h
  | load_dependency_and_markers dependencies markers =>
    cases hstep
    simp only
    rw [LoadDependencyAndMarkers_frame]
    exact h
  | set_callback p callback =>
    cases hstep
    have hp : ¬ p = point := by simpa [Action.setsCallBack] using hset
    have hp1 : ¬ point = p := fun h1 => hp h1.symm
    simp [SetCallBack, StrMap.assign, hp1, h]
  | clear_callback p =>
    simp only [Engine.step, Option.map_eq_some'] at hstep
    obtain ⟨d1, hd1, rfl⟩ := hstep
    unfold ClearCallBack at hd1
    split at hd1
    · cases hd1
    · cases hd1
      simp [StrMap.erase, h]
  | clear_all_callbacks =>
    simp only [Engine.step, Option.map_eq_some'] at hstep
    obtain ⟨d1, hd1, rfl⟩ := hstep
    unfold ClearAllCallBacks at hd1
    split at hd1
    · cases hd1
    · cases hd1
      rfl
  | enable_processing =>
    cases hstep
    exact h
  | disable_processing =>
    cases hstep
    exact h
  | clear_trace =>
    cases hstep
    exact h

theorem run_callbacks_none (point : String) (acts : List Action) (e e1 : Engine)
    (hrun : e.run acts = some e1) (hset : ∀ a ∈ acts, a.setsCallBack point = false)
    (h : e.data.callbacks_ point = none) : e1.data.callbacks_ point = none := by
  induction acts generalizing e with
  | nil =>
    cases hrun
    exact h
  | cons a rest ih =>
    simp only [Engine.run, Option.bind_eq_some] at hrun
    obtain ⟨e2, hstep, hrest⟩ := hrun
    exact ih e2 hrest (fun a1 ha1 => hset a1 (List.mem_cons_of_mem a ha1))
      (step_callbacks_none e e2 a point hstep (hset a (List.mem_cons_self a rest)) h)

/-! ### The running-callback counter along a run -/

theorem Pc.after_inCallback (st : Status) (point : String) (cb_arg : CbArg) :
    (Pc.after st point cb_arg).inCallback = true ↔ ∃ cb, st = Status.in_callback cb := by
  cases st <;> simp [Pc.after, Pc.inCallback]

/-- A section that starts at the marker test adds one to the counter exactly when it ends at the
callback invocation. -/
theorem ProcessWake_counter (d : Data) (point : String) (thread_id : ThreadId)
    (cb_arg : CbArg) :
    (ProcessWake d point thread_id).2.num_callbacks_running_
      = d.num_callbacks_running_
        + (if (Pc.after (ProcessWake d point thread_id).1 point cb_arg).inCallback then 1
           else 0) := by
  rcases ProcessWake_cases d point thread_id with h | ⟨_, h⟩ | ⟨_, cb, _, h⟩ | ⟨_, _, h⟩ <;>
    rw [h] <;> simp [Pc.after, Pc.inCallback]

theorem ProcessEnter_counter (d : Data) (point : String) (thread_id : ThreadId)
    (cb_arg : CbArg) :
    (ProcessEnter d point thread_id).2.num_callbacks_running_
      = d.num_callbacks_running_
        + (if (Pc.after (ProcessEnter d point thread_id).1 point cb_arg).inCallback then 1
           else 0) := by
  rcases Bool.eq_false_or_eq_true d.enabled_ with henabled | henabled
  · rw [ProcessEnter_eq_wake d point thread_id henabled,
      ProcessWake_counter (armMarkers d point thread_id) point thread_id cb_arg,
      (armMarkers_fields d point thread_id).2.2.2]
  · rw [ProcessEnter_not_enabled d point thread_id henabled]
    simp [Pc.after, Pc.inCallback]

theorem counterCounts_enter (e : Engine) (thread_id : ThreadId) (newpc : Pc) (d1 : Data)
    (inv1 : List (ThreadId × CallBack × CbArg)) (h : counterCounts e)
    (hold : (e.pc thread_id).inCallback = false)
    (hnum : d1.num_callbacks_running_
      = e.data.num_callbacks_running_ + (if newpc.inCallback then 1 else 0)) :
    counterCounts { data := d1, pc := Function.update e.pc thread_id newpc, invoked := inv1 } := by
  obtain ⟨S, hS, hcard⟩ := h
  have hnot : thread_id ∉ S := by
    rw [hS, hold]
    simp
  cases hnew : newpc.inCallback with
  | true =>
    refine ⟨insert thread_id S, ?_, ?_⟩
    · intro t
      by_cases ht : t = thread_id
      · subst ht
        simp [hnew]
      · simp [ht, hS]
    · rw [Finset.card_insert_of_not_mem hnot]
      simp only [hnum, hnew, if_true, hcard]
      push_cast
      rfl
  | false =>
    refine ⟨S, ?_, ?_⟩
    · intro t
      by_cases ht : t = thread_id
      · subst ht
        simp [hnew, hnot]
      · simp [ht, hS]
    · simp [hnum, hnew, hcard]

theorem counterCounts_return (e : Engine) (thread_id : ThreadId) (d1 : Data)
    (inv1 : List (ThreadId × CallBack × CbArg)) (h : counterCounts e)
    (hold : (e.pc thread_id).inCallback = true)
    (hnum : d1.num_callbacks_running_ = e.data.num_callbacks_running_ - 1) :
    counterCounts
      { data := d1, pc := Function.update e.pc thread_id Pc.idle, invoked := inv1 } := by
  obtain ⟨S, hS, hcard⟩ := h
  have hmem : thread_id ∈ S := (hS thread_id).mpr hold
  refine ⟨S.erase thread_id, ?_, ?_⟩
  · intro t
    by_cases ht : t = thread_id
    · subst ht
      simp [Pc.inCallback]
    · simp [ht, hS]
  · have hpos : 0 < S.card := Finset.card_pos.mpr ⟨thread_id, hmem⟩
    rw [Finset.card_erase_of_mem hmem]
    simp only [hnum, hcard]
    omega

theorem counterCounts_data (e : Engine) (d1 : Data) (h : counterCounts e)
    (hnum : d1.num_callbacks_running_ = e.data.num_callbacks_running_) :
    counterCounts { e with data := d1 } := by
  obtain ⟨S, hS, hcard⟩ := h
  exact ⟨S, hS, by simp [hnum, hcard]⟩

theorem counterCounts_init : counterCounts Engine.init :=
  ⟨∅, by simp [Engine.init, Pc.inCallback], by simp [Engine.init, Data.init]⟩

theorem step_counterCounts (e e1 : Engine) (a : Action) (hstep : e.step a = some e1)
    (h : counterCounts e) : counterCounts e1 := by
  cases a with
  | call thread_id p cb_arg =>
    simp only [Engine.step] at hstep
    cases hpc : e.pc thread_id with
    | idle =>
      rw [hpc] at hstep
      simp only [Option.some.injEq] at hstep
      subst hstep
      exact counterCounts_enter e thread_id _ _ _ h (by rw [hpc]; rfl)
        (ProcessEnter_counter e.data p thread_id cb_arg)
    | waiting p1 a1 =>
      rw [hpc] at hstep
      cases hstep
    | in_callback p1 c1 a1 =>
      rw [hpc] at hstep
      cases hstep
  | wake thread_id =>
    simp only [Engine.step] at hstep
    cases hpc : e.pc thread_id with
    | idle =>
      rw [hpc] at hstep
      cases hstep
    | waiting p cb_arg =>
      rw [hpc] at hstep
      simp only [Option.some.injEq] at hstep
      subst hstep
      exact counterCounts_enter e thread_id _ _ _ h (by rw [hpc]; rfl)
        (ProcessWake_counter e.data p thread_id cb_arg)
    | in_callback p1 c1 a1 =>
      rw [hpc] at hstep
      cases hstep
  | callback_return thread_id =>
    simp only [Engine.step] at hstep
    cases hpc : e.pc thread_id with
    | idle =>
      rw [hpc] at hstep
      cases hstep
    | waiting p1 a1 =>
      rw [hpc] at hstep
      cases hstep
    | in_callback p cb cb_arg =>
      rw [hpc] at hstep
      simp only [Option.some.injEq] at hstep
      subst hstep
      exact counterCounts_return e thread_id _ _ h (by rw [hpc]; rfl) rfl
  | load_dependency dependencies =>
    cases hstep
    exact counterCounts_data e _ h (by rw [LoadDependency_frame])
  | load_dependency_and_markers dependencies markers =>
    cases hstep
    exact counterCounts_data e _ h (by rw [LoadDependencyAndMarkers_frame])
  | set_callback p callback =>
    cases hstep
    exact counterCounts_data e _ h rfl
  | clear_callback p =>
    simp only [Engine.step, Option.map_eq_some'] at hstep
    obtain ⟨d1, hd1, rfl⟩ := hstep
    unfold ClearCallBack at hd1
    split at hd1
    · cases hd1
    · cases hd1
      exact counterCounts_data e _ h rfl
  | clear_all_callbacks =>
    simp only [Engine.step, Option.map_eq_some'] at hstep
    obtain ⟨d1, hd1, rfl⟩ := hstep
    unfold ClearAllCallBacks at hd1
    split at hd1
    · cases hd1
    · cases hd1
      exact counterCounts_data e _ h rfl
  | enable_processing =>
    cases hstep
    exact counterCounts_data e _ h rfl
  | disable_processing =>
    cases hstep
    exact counterCounts_data e _ h rfl
  | clear_trace =>
    cases hstep
    exact counterCounts_data e _ h rfl

theorem run_counterCounts (acts : List Action) (e e1 : Engine) (hrun : e.run acts = some e1)
    (h : counterCounts e) : counterCounts e1 := by
  induction acts generalizing e with
  | nil =>
    cases hrun
    exact h
  | cons a rest ih =>
    simp only [Engine.run, Option.bind_eq_some] at hrun
    obtain ⟨e2, hstep, hrest⟩ := hrun
    exact ih e2 hrest (step_counterCounts e e2 a hstep h)

/-! ### The cleared set and the predecessor lists along a run -/

theorem subscript_keeps_entry (m : StrMap (List String)) (key k : String) (l : List String)
    (h : m k = some l) : m.subscript key k = some l := by
  rcases subscript_apply m key k with h1 | ⟨_, h1, _⟩
  · rw [h1, h]
  · rw [h1] at h
    cases h

/-- What a section that starts at the marker test does to the cleared set and to the predecessor
lists: it adds `point` to the cleared set, or stops at the callback invocation, only when all
loaded predecessors of `point` are cleared. -/
theorem ProcessWake_cleared (d : Data) (point : String) (thread_id : ThreadId) :
    d.cleared_points_ ⊆ (ProcessWake d point thread_id).2.cleared_points_
      ∧ (∀ x ∈ (ProcessWake d point thread_id).2.cleared_points_,
          x ∈ d.cleared_points_
            ∨ (x = point ∧ ∀ pred ∈ listAt d.predecessors_ point, pred ∈ d.cleared_points_))
      ∧ (∀ k, listAt (ProcessWake d point thread_id).2.predecessors_ k
            = listAt d.predecessors_ k)
      ∧ (∀ k l, d.predecessors_ k = some l →
            (ProcessWake d point thread_id).2.predecessors_ k = some l)
      ∧ (∀ cb, (ProcessWake d point thread_id).1 = Status.in_callback cb →
            ∀ pred ∈ listAt d.predecessors_ point, pred ∈ d.cleared_points_) := by
  rcases ProcessWake_cases d point thread_id with h | ⟨_, h⟩ | ⟨hp, cb, _, h⟩ | ⟨hp, _, h⟩
  · rw [h]
    refine ⟨Finset.Subset.refl _, fun x hx => Or.inl hx, fun _ => rfl, fun _ _ hk => hk, ?_⟩
    intro cb hcb
    cases hcb
  · rw [h]
    refine ⟨Finset.Subset.refl _, fun x hx => Or.inl hx, fun k => listAt_subscript _ _ k,
      fun k l hk => subscript_keeps_entry _ _ k l hk, ?_⟩
    intro cb hcb
    cases hcb
  · rw [h]
    exact ⟨Finset.Subset.refl _, fun x hx => Or.inl hx, fun k => listAt_subscript _ _ k,
      fun k l hk => subscript_keeps_entry _ _ k l hk, fun _ _ => hp⟩
  · rw [h]
    refine ⟨Finset.subset_insert _ _, ?_, fun k => listAt_subscript _ _ k,
      fun k l hk => subscript_keeps_entry _ _ k l hk, fun _ _ => hp⟩
    intro x hx
    rcases Finset.mem_insert.mp hx with hx1 | hx1
    · exact Or.inr ⟨hx1, hp⟩
    · exact Or.inl hx1

theorem ProcessEnter_cleared (d : Data) (point : String) (thread_id : ThreadId) :
    d.cleared_points_ ⊆ (ProcessEnter d point thread_id).2.cleared_points_
      ∧ (∀ x ∈ (ProcessEnter d point thread_id).2.cleared_points_,
          x ∈ d.cleared_points_
            ∨ (x = point ∧ ∀ pred ∈ listAt d.predecessors_ point, pred ∈ d.cleared_points_))
      ∧ (∀ k, listAt (ProcessEnter d point thread_id).2.predecessors_ k
            = listAt d.predecessors_ k)
      ∧ (∀ k l, d.predecessors_ k = some l →
            (ProcessEnter d point thread_id).2.predecessors_ k = some l)
      ∧ (∀ cb, (ProcessEnter d point thread_id).1 = Status.in_callback cb →
            ∀ pred ∈ listAt d.predecessors_ point, pred ∈ d.cleared_points_) := by
  rcases Bool.eq_false_or_eq_true d.enabled_ with henabled | henabled
  · rw [ProcessEnter_eq_wake d point thread_id henabled]
    have h := ProcessWake_cleared (armMarkers d point thread_id) point thread_id
    rw [armMarkers_cleared, armMarkers_predecessors] at h
    exact h
  · rw [ProcessEnter_not_enabled d point thread_id henabled]
    refine ⟨Finset.Subset.refl _, fun x hx => Or.inl hx, fun _ => rfl, fun _ _ hk => hk, ?_⟩
    intro cb hcb
    cases hcb

theorem Pc.after_eq_in_callback (st : Status) (point x : String) (cb_arg a : CbArg)
    (cb : CallBack) (h : Pc.after st point cb_arg = Pc.in_callback x cb a) :
    x = point ∧ st = Status.in_callback cb := by
  cases st <;> simp [Pc.after] at h
  obtain ⟨h1, h2, _⟩ := h
  exact ⟨h1.symm, by rw [h2]⟩

/-- One action that is neither a load nor a trace clear: the cleared set grows, the predecessor
lists stay, a point enters the cleared set only with all its predecessors cleared or at the
return of a callback that was running for it, and a thread enters a callback for a point only
with all predecessors of the point cleared. -/
theorem step_no_reset (e e1 : Engine) (a : Action) (hstep : e.step a = some e1)
    (hreset : a.isReset = false) :
    e.data.cleared_points_ ⊆ e1.data.cleared_points_
      ∧ (∀ k, listAt e1.data.predecessors_ k = listAt e.data.predecessors_ k)
      ∧ (∀ k l, e.data.predecessors_ k = some l → e1.data.predecessors_ k = some l)
      ∧ (∀ x ∈ e1.data.cleared_points_,
          x ∈ e.data.cleared_points_
            ∨ (∀ pred ∈ listAt e.data.predecessors_ x, pred ∈ e.data.cleared_points_)
            ∨ ∃ t cb arg, e.pc t = Pc.in_callback x cb arg)
      ∧ (∀ t x cb arg, e1.pc t = Pc.in_callback x cb arg →
          e.pc t = Pc.in_callback x cb arg
            ∨ ∀ pred ∈ listAt e.data.predecessors_ x, pred ∈ e.data.cleared_points_) := by
  have same : ∀ e2 : Engine, e2.data.cleared_points_ = e.data.cleared_points_ →
      e2.data.predecessors_ = e.data.predecessors_ → e2.pc = e.pc →
      e.data.cleared_points_ ⊆ e2.data.cleared_points_
        ∧ (∀ k, listAt e2.data.predecessors_ k = listAt e.data.predecessors_ k)
        ∧ (∀ k l, e.data.predecessors_ k = some l → e2.data.predecessors_ k = some l)
        ∧ (∀ x ∈ e2.data.cleared_points_,
            x ∈ e.data.cleared_points_
              ∨ (∀ pred ∈ listAt e.data.predecessors_ x, pred ∈ e.data.cleared_points_)
              ∨ ∃ t cb arg, e.pc t = Pc.in_callback x cb arg)
        ∧ (∀ t x cb arg, e2.pc t = Pc.in_callback x cb arg →
            e.pc t = Pc.in_callback x cb arg
              ∨ ∀ pred ∈ listAt e.data.predecessors_ x, pred ∈ e.data.cleared_points_) := by
    intro e2 hc hp hpc
    rw [hc, hp, hpc]
    exact ⟨Finset.Subset.refl _, fun _ => rfl, fun _ _ hk => hk, fun x hx => Or.inl hx,
      fun _ _ _ _ h => Or.inl h⟩
  have section_ok : ∀ (thread_id : ThreadId) (point : String) (cb_arg : CbArg)
      (r : Status × Data), (e.pc thread_id).inCallback = false →
      e.data.cleared_points_ ⊆ r.2.cleared_points_ →
      (∀ x ∈ r.2.cleared_points_, x ∈ e.data.cleared_points_
          ∨ (x = point
            ∧ ∀ pred ∈ listAt e.data.predecessors_ point, pred ∈ e.data.cleared_points_)) →
      (∀ k, listAt r.2.predecessors_ k = listAt e.data.predecessors_ k) →
      (∀ k l, e.data.predecessors_ k = some l → r.2.predecessors_ k = some l) →
      (∀ cb, r.1 = Status.in_callback cb →
          ∀ pred ∈ listAt e.data.predecessors_ point, pred ∈ e.data.cleared_points_) →
      e.data.cleared_points_ ⊆ (e.advance thread_id point cb_arg r).data.cleared_points_
        ∧ (∀ k, listAt (e.advance thread_id point cb_arg r).data.predecessors_ k
              = listAt e.data.predecessors_ k)
        ∧ (∀ k l, e.data.predecessors_ k = some l →
              (e.advance thread_id point cb_arg r).data.predecessors_ k = some l)
        ∧ (∀ x ∈ (e.advance thread_id point cb_arg r).data.cleared_points_,
            x ∈ e.data.cleared_points_
              ∨ (∀ pred ∈ listAt e.data.predecessors_ x, pred ∈ e.data.cleared_points_)
              ∨ ∃ t cb arg, e.pc t = Pc.in_callback x cb arg)
        ∧ (∀ t x cb arg, (e.advance thread_id point cb_arg r).pc t = Pc.in_callback x cb arg →
            e.pc t = Pc.in_callback x cb arg
              ∨ ∀ pred ∈ listAt e.data.predecessors_ x, pred ∈ e.data.cleared_points_) := by
    intro thread_id point cb_arg r _ h1 h2 h3 h4 h5
    refine ⟨h1, h3, h4, ?_, ?_⟩
    · intro x hx
      rcases h2 x hx with hx1 | ⟨hx1, hx2⟩
      · exact Or.inl hx1
      · subst hx1
        exact Or.inr (Or.inl hx2)
    · intro t x cb arg ht
      simp only [Engine.advance] at ht
      by_cases htt : t = thread_id
      · subst htt
        rw [Function.update_same] at ht
        obtain ⟨hx, hst⟩ := Pc.after_eq_in_callback _ _ _ _ _ _ ht
        subst hx
        exact Or.inr (h5 cb hst)
      · rw [Function.update_noteq htt] at ht
        exact Or.inl ht
  cases a with
  | call thread_id p cb_arg =>
    simp only [Engine.step] at hstep
    cases hpc : e.pc thread_id with
    | idle =>
      rw [hpc] at hstep
      simp only [Option.some.injEq] at hstep
      subst hstep
      obtain ⟨h1, h2, h3, h4, h5⟩ := ProcessEnter_cleared e.data p thread_id
      exact section_ok thread_id p cb_arg _ (by rw [hpc]; rfl) h1 h2 h3 h4 h5
    | waiting p1 a1 =>
      rw [hpc] at hstep
      cases hstep
    | in_callback p1 c1 a1 =>
      rw [hpc] at hstep
      cases hstep
  | wake thread_id =>
    simp only [Engine.step] at hstep
    cases hpc : e.pc thread_id with
    | idle =>
      rw [hpc] at hstep
      cases hstep
    | waiting p cb_arg =>
      rw [hpc] at hstep
      simp only [Option.some.injEq] at hstep
      subst hstep
      obtain ⟨h1, h2, h3, h4, h5⟩ := ProcessWake_cleared e.data p thread_id
      exact section_ok thread_id p cb_arg _ (by rw [hpc]; rfl) h1 h2 h3 h4 h5
    | in_callback p1 c1 a1 =>
      rw [hpc] at hstep
      cases hstep
  | callback_return thread_id =>
    simp only [Engine.step] at hstep
    cases hpc : e.pc thread_id with
    | idle =>
      rw [hpc] at hstep
      cases hstep
    | waiting p1 a1 =>
      rw [hpc] at hstep
      cases hstep
    | in_callback p cb cb_arg =>
      rw [hpc] at hstep
      simp only [Option.some.injEq] at hstep
      subst hstep
      refine ⟨Finset.subset_insert _ _, fun _ => rfl, fun _ _ hk => hk, ?_, ?_⟩
      · intro x hx
        rcases Finset.mem_insert.mp hx with hx1 | hx1
        · subst hx1
          exact Or.inr (Or.inr ⟨thread_id, cb, cb_arg, hpc⟩)
        · exact Or.inl hx1
      · intro t x cb1 arg ht
        simp only at ht
        by_cases htt : t = thread_id
        · subst htt
          rw [Function.update_same] at ht
          cases ht
        · rw [Function.update_noteq htt] at ht
          exact Or.inl ht
  | load_dependency dependencies => cases hreset
  | load_dependency_and_markers dependencies markers => cases hreset
  | set_callback p callback =>
    cases hstep
    exact same _ rfl rfl rfl
  | clear_callback p =>
    simp only [Engine.step, Option.map_eq_some'] at hstep
    obtain ⟨d1, hd1, rfl⟩ := hstep
    unfold ClearCallBack at hd1
    split at hd1
    · cases hd1
    · cases hd1
      exact same _ rfl rfl rfl
  | clear_all_callbacks =>
    simp only [Engine.step, Option.map_eq_some'] at hstep
    obtain ⟨d1, hd1, rfl⟩ := hstep
    unfold ClearAllCallBacks at hd1
    split at hd1
    · cases hd1
    · cases hd1
      exact same _ rfl rfl rfl
  | enable_processing =>
    cases hstep
    exact same _ rfl rfl rfl
  | disable_processing =>
    cases hstep
    exact same _ rfl rfl rfl
  | clear_trace => cases hreset

theorem cycle_index (n j : Nat) (hj : j < n) : ((j + n - 1) % n + 1) % n = j := by
  rcases Nat.eq_zero_or_pos j with h0 | hpos
  · subst h0
    have h1 : (0 + n - 1) % n = n - 1 := by
      rw [Nat.zero_add]
      exact Nat.mod_eq_of_lt (by omega)
    rw [h1, show n - 1 + 1 = n by omega, Nat.mod_self]
  · have h1 : (j + n - 1) % n = j - 1 := by
      rw [show j + n - 1 = (j - 1) + n by omega, Nat.add_mod_right]
      exact Nat.mod_eq_of_lt (by omega)
    rw [h1, show j - 1 + 1 = j by omega]
    exact Nat.mod_eq_of_lt hj

/-- Every point of a cycle has a loaded predecessor on the cycle. -/
theorem isCycle_predecessor (d : Data) (cycle : List String) (h : isCycle d cycle) :
    ∀ point ∈ cycle, ∃ pred ∈ cycle, pred ∈ listAt d.predecessors_ point := by
  intro point hpoint
  obtain ⟨j, hj, hget⟩ := List.mem_iff_getElem.mp hpoint
  have hlt : (j + cycle.length - 1) % cycle.length < cycle.length :=
    Nat.mod_lt _ (by omega)
  have hstep := h.2 ((j + cycle.length - 1) % cycle.length) hlt
  rw [cycle_index cycle.length j hj, List.getD_eq_getElem cycle "" hj, hget,
    List.getD_eq_getElem cycle "" hlt] at hstep
  exact ⟨_, List.getElem_mem _, hstep⟩

theorem Action.isProcess_not_reset (a : Action) (h : a.isProcess = true) :
    a.isReset = false := by
  cases a <;> simp [Action.isProcess, Action.isReset] at h ⊢

/-- Along a run without load and trace clear, when every point of `cycle` has a predecessor on
`cycle`, no point of `cycle` is cleared and no thread is inside a callback for one: no point of
`cycle` gets cleared, and no thread enters a callback for one. -/
theorem run_cycle (cycle : List String) (preds0 : StrMap (List String))
    (hclosed : ∀ point ∈ cycle, ∃ pred ∈ cycle, pred ∈ listAt preds0 point)
    (acts : List Action) (e e1 : Engine) (hrun : e.run acts = some e1)
    (hreset : ∀ a ∈ acts, a.isReset = false)
    (hcleared : ∀ point ∈ cycle, point ∉ e.data.cleared_points_)
    (hpreds : ∀ k, listAt e.data.predecessors_ k = listAt preds0 k)
    (hpc : ∀ t point cb arg, e.pc t = Pc.in_callback point cb arg → point ∉ cycle) :
    (∀ point ∈ cycle, point ∉ e1.data.cleared_points_)
      ∧ (∀ k, listAt e1.data.predecessors_ k = listAt preds0 k)
      ∧ (∀ t point cb arg, e1.pc t = Pc.in_callback point cb arg → point ∉ cycle) := by
  induction acts generalizing e with
  | nil =>
    cases hrun
    exact ⟨hcleared, hpreds, hpc⟩
  | cons a rest ih =>
    simp only [Engine.run, Option.bind_eq_some] at hrun
    obtain ⟨e2, hstep, hrest⟩ := hrun
    obtain ⟨_, h2, _, h4, h5⟩ :=
      step_no_reset e e2 a hstep (hreset a (List.mem_cons_self a rest))
    have hblocked : ∀ point ∈ cycle,
        ¬ ∀ pred ∈ listAt e.data.predecessors_ point, pred ∈ e.data.cleared_points_ := by
      intro point hpoint hall
      obtain ⟨pred, hpred, hmem⟩ := hclosed point hpoint
      rw [← hpreds point] at hmem
      exact hcleared pred hpred (hall pred hmem)
    apply ih e2 hrest (fun a1 ha1 => hreset a1 (List.mem_cons_of_mem a ha1))
    · intro point hpoint hin
      rcases h4 point hin with h | h | ⟨t, cb, arg, h⟩
      · exact hcleared point hpoint h
      · exact hblocked point hpoint h
      · exact hpc t point cb arg h hpoint
    · intro k
      rw [h2 k, hpreds k]
    · intro t point cb arg ht hpoint
      rcases h5 t point cb arg ht with h | h
      · exact hpc t point cb arg h hpoint
      · exact hblocked point hpoint h

theorem Process_blocked (d : Data) (point : String) (cb_arg : CbArg) (thread_id : ThreadId)
    (henabled : d.enabled_ = true)
    (hpred : ∃ pred ∈ listAt d.predecessors_ point, pred ∉ d.cleared_points_)
    (hmarker : DisabledByMarker (armMarkers d point thread_id) point thread_id = false) :
    (Process d point cb_arg thread_id).status = Status.waiting
      ∧ (Process d point cb_arg thread_id).invoked = [] := by
  have hpred1 : ∃ pred ∈ listAt (armMarkers d point thread_id).predecessors_ point,
      pred ∉ (armMarkers d point thread_id).cleared_points_ := by
    rw [armMarkers_predecessors, armMarkers_cleared]
    exact hpred
  unfold Process
  rw [ProcessEnter_enabled d point thread_id henabled hmarker, waitLoop_blocked _ _ hpred1]
  exact ⟨rfl, rfl⟩

theorem ProcessResume_blocked (d : Data) (point : String) (cb_arg : CbArg)
    (thread_id : ThreadId)
    (hpred : ∃ pred ∈ listAt d.predecessors_ point, pred ∉ d.cleared_points_)
    (hmarker : DisabledByMarker d point thread_id = false) :
    (ProcessResume d point cb_arg thread_id).status = Status.waiting
      ∧ (ProcessResume d point cb_arg thread_id).invoked = [] := by
  unfold ProcessResume
  rw [ProcessWake_enabled d point thread_id hmarker, waitLoop_blocked _ _ hpred]
  exact ⟨rfl, rfl⟩

/-! ### The closure of the cleared set along a run -/

theorem predecessorClosed_of_empty (d : Data) (h : d.cleared_points_ = ∅) :
    predecessorClosed d := by
  intro x hx
  rw [h] at hx
  exact absurd hx (Finset.not_mem_empty x)

/-- A load or a trace clear empties the cleared set and moves no thread. -/
theorem step_reset (e e1 : Engine) (a : Action) (hstep : e.step a = some e1)
    (hreset : a.isReset = true) : e1.data.cleared_points_ = ∅ ∧ e1.pc = e.pc := by
  cases a with
  | load_dependency dependencies =>
    cases hstep
    refine ⟨?_, rfl⟩
    simp only
    rw [LoadDependency_frame]
  | load_dependency_and_markers dependencies markers =>
    cases hstep
    exact ⟨LoadDependencyAndMarkers_cleared e.data dependencies markers, rfl⟩
  | clear_trace =>
    cases hstep
    exact ⟨rfl, rfl⟩
  | call thread_id point cb_arg => cases hreset
  | wake thread_id => cases hreset
  | callback_return thread_id => cases hreset
  | set_callback point callback => cases hreset
  | clear_callback point => cases hreset
  | clear_all_callbacks => cases hreset
  | enable_processing => cases hreset
  | disable_processing => cases hreset

/-- With the counter at zero no thread is inside a callback. -/
theorem counterCounts_zero (e : Engine) (h : counterCounts e)
    (hzero : e.data.num_callbacks_running_ = 0) : ∀ t, (e.pc t).inCallback = false := by
  obtain ⟨S, hS, hcard⟩ := h
  intro t
  have hempty : S = ∅ := by
    apply Finset.card_eq_zero.mp
    rw [hzero] at hcard
    exact_mod_cast hcard.symm
  cases hin : (e.pc t).inCallback with
  | false => rfl
  | true =>
    have hmem := (hS t).mpr hin
    rw [hempty] at hmem
    exact absurd hmem (Finset.not_mem_empty t)

/-- One action keeps: the cleared set is closed under loaded predecessors, the counter counts
the threads inside a callback, and every thread inside a callback is there for a point whose
loaded predecessors are all cleared; a load or a trace clear is assumed to be taken with the
counter at zero. -/
theorem step_closed (e e1 : Engine) (a : Action) (hstep : e.step a = some e1)
    (hquiet : a.isReset = true → e.data.num_callbacks_running_ = 0)
    (hclosed : predecessorClosed e.data) (hcount : counterCounts e)
    (hpc : ∀ t x cb arg, e.pc t = Pc.in_callback x cb arg →
      ∀ pred ∈ listAt e.data.predecessors_ x, pred ∈ e.data.cleared_points_) :
    predecessorClosed e1.data ∧ counterCounts e1
      ∧ (∀ t x cb arg, e1.pc t = Pc.in_callback x cb arg →
          ∀ pred ∈ listAt e1.data.predecessors_ x, pred ∈ e1.data.cleared_points_) := by
  refine ⟨?_, step_counterCounts e e1 a hstep hcount, ?_⟩
  · cases hreset : a.isReset with
    | true => exact predecessorClosed_of_empty e1.data (step_reset e e1 a hstep hreset).1
    | false =>
      obtain ⟨h1, h2, _, h4, _⟩ := step_no_reset e e1 a hstep hreset
      intro x hx pred hpred
      rw [h2 x] at hpred
      apply h1
      rcases h4 x hx with h | h | ⟨t, cb, arg, h⟩
      · exact hclosed x h pred hpred
      · exact h pred hpred
      · exact hpc t x cb arg h pred hpred
  · cases hreset : a.isReset with
    | true =>
      intro t x cb arg ht
      have hidle := counterCounts_zero e hcount (hquiet hreset) t
      rw [← (step_reset e e1 a hstep hreset).2, ht] at hidle
      cases hidle
    | false =>
      obtain ⟨h1, h2, _, _, h5⟩ := step_no_reset e e1 a hstep hreset
      intro t x cb arg ht pred hpred
      rw [h2 x] at hpred
      apply h1
      rcases h5 t x cb arg ht with h | h
      · exact hpc t x cb arg h pred hpred
      · exact h pred hpred

theorem run_closed (acts : List Action) (e e1 : Engine) (hrun : e.run acts = some e1)
    (hquiet : e.resetsQuiet acts = true)
    (hclosed : predecessorClosed e.data) (hcount : counterCounts e)
    (hpc : ∀ t x cb arg, e.pc t = Pc.in_callback x cb arg →
      ∀ pred ∈ listAt e.data.predecessors_ x, pred ∈ e.data.cleared_points_) :
    predecessorClosed e1.data := by
  induction acts generalizing e with
  | nil =>
    cases hrun
    exact hclosed
  | cons a rest ih =>
    simp only [Engine.run, Option.bind_eq_some] at hrun
    obtain ⟨e2, hstep, hrest⟩ := hrun
    simp only [Engine.resetsQuiet, hstep, Bool.and_eq_true, Bool.or_eq_true,
      Bool.not_eq_true', decide_eq_true_eq] at hquiet
    obtain ⟨hq, hrestq⟩ := hquiet
    have hq1 : a.isReset = true → e.data.num_callbacks_running_ = 0 := by
      intro hr
      rcases hq with h | h
      · rw [hr] at h
        cases h
      · exact h
    obtain ⟨i1, i2, i3⟩ := step_closed e e2 a hstep hq1 hclosed hcount hpc
    exact ih e2 hrest hrestq i1 i2 i3

/-! ## The claims -/

/-- C1 (happens-after).  With processing enabled, a `Process(point, cb_arg)` call of a thread that
the marker rule does not pass through, on a point with a loaded predecessor that is not in the
cleared set, blocks in `cv_.wait`: it invokes no callback and leaves the cleared set as it was.
Whenever it is woken in a state where the point still has an uncleared predecessor (and the
marker rule still does not pass the thread through) it blocks again, with the same effects. -/
theorem process_blocks_on_uncleared_predecessor (d : Data) (point : String) (cb_arg : CbArg)
    (thread_id : ThreadId) (henabled : d.enabled_ = true)
    (hpred : ∃ pred ∈ listAt d.predecessors_ point, pred ∉ d.cleared_points_)
    (hmarker : DisabledByMarker (armMarkers d point thread_id) point thread_id = false) :
    ((Process d point cb_arg thread_id).status = Status.waiting
      ∧ (Process d point cb_arg thread_id).invoked = []
      ∧ (Process d point cb_arg thread_id).data.cleared_points_ = d.cleared_points_
      ∧ point ∉ (Process d point cb_arg thread_id).data.cleared_points_ \ d.cleared_points_)
    ∧ ∀ later : Data,
        (∃ pred ∈ listAt later.predecessors_ point, pred ∉ later.cleared_points_) →
        DisabledByMarker later point thread_id = false →
        (ProcessResume later point cb_arg thread_id).status = Status.waiting
          ∧ (ProcessResume later point cb_arg thread_id).invoked = []
          ∧ (ProcessResume later point cb_arg thread_id).data.cleared_points_
              = later.cleared_points_ := by
  constructor
  · have hpred1 : ∃ pred ∈ listAt (armMarkers d point thread_id).predecessors_ point,
        pred ∉ (armMarkers d point thread_id).cleared_points_ := by
      rw [armMarkers_predecessors, armMarkers_cleared]
      exact hpred
    have hrun : Process d point cb_arg thread_id
        = { status := Status.waiting, invoked := [],
            data := { armMarkers d point thread_id with
              predecessors_ := (armMarkers d point thread_id).predecessors_.subscript point } } := by
      unfold Process
      rw [ProcessEnter_enabled d point thread_id henabled hmarker, waitLoop_blocked _ _ hpred1]
    rw [hrun]
    simp [armMarkers_cleared]
  · intro later hlater hm
    have hrun : ProcessResume later point cb_arg thread_id
        = { status := Status.waiting, invoked := [],
            data := { later with predecessors_ := later.predecessors_.subscript point } } := by
      unfold ProcessResume
      rw [ProcessWake_enabled later point thread_id hm, waitLoop_blocked _ _ hlater]
    rw [hrun]
    simp

/-- Witness for C1: after `LoadDependency([(A, B)])` with processing enabled, `Process(B)` of
thread 2 blocks, and blocks again at a wake-up before `A` is cleared; woken after `Process(A)` of
thread 1 has cleared `A`, it completes. -/
theorem process_blocks_on_uncleared_predecessor_witness :
    (Process (EnableProcessing (LoadDependency Data.init [⟨"A", "B"⟩])) "B" 0 2).status
        = Status.waiting
      ∧ (ProcessResume
          (Process (EnableProcessing (LoadDependency Data.init [⟨"A", "B"⟩])) "B" 0 2).data
          "B" 0 2).status = Status.waiting
      ∧ (ProcessResume
          (Process
            (Process (EnableProcessing (LoadDependency Data.init [⟨"A", "B"⟩])) "B" 0 2).data
            "A" 0 1).data
          "B" 0 2).status = Status.cleared :=
  have h := process_blocks_on_uncleared_predecessor
    (EnableProcessing (LoadDependency Data.init [⟨"A", "B"⟩])) "B" 0 2 (by decide)
    ⟨"A", by decide, by decide⟩ (by decide)
  ⟨h.1.1, (h.2 _ ⟨"A", by decide, by decide⟩ (by decide)).1, by decide⟩

/-- C2.  With processing enabled, a `Process(point, cb_arg)` call of a thread that the marker
rule does not pass through, on a point whose loaded predecessors are all in the cleared set,
completes without blocking; it invokes the callback registered for the point exactly once, with
the argument `cb_arg`, and invokes nothing when none is registered; the point is in the cleared
set afterwards.  Nothing is assumed about the point being in the cleared set before, so the
callback is invoked by every completing call.  Section by section: the first section ends at the
invocation of the registered callback (or at the return, with none registered), never in
`cv_.wait`, and the section after the callback inserts the point whatever other threads did to
the engine while the callback ran. -/
theorem process_completes_and_invokes_callback (d : Data) (point : String) (cb_arg : CbArg)
    (thread_id : ThreadId) (henabled : d.enabled_ = true)
    (hpred : ∀ pred ∈ listAt d.predecessors_ point, pred ∈ d.cleared_points_)
    (hmarker : DisabledByMarker (armMarkers d point thread_id) point thread_id = false) :
    (Process d point cb_arg thread_id).status = Status.cleared
      ∧ (Process d point cb_arg thread_id).invoked
          = (match d.callbacks_ point with
             | some cb => [(cb, cb_arg)]
             | none => [])
      ∧ point ∈ (Process d point cb_arg thread_id).data.cleared_points_
      ∧ (ProcessEnter d point thread_id).1
          = (match d.callbacks_ point with
             | some cb => Status.in_callback cb
             | none => Status.cleared)
      ∧ ∀ later : Data, point ∈ (ProcessCallbackReturn later point).cleared_points_ := by
  have henter := ProcessEnter_of_cleared_predecessors d point thread_id henabled hpred hmarker
  refine ⟨?_, ?_, ?_, ?_, ?_⟩
  · unfold Process
    rw [henter]
    unfold afterPredecessors
    simp only [armMarkers_callbacks]
    cases d.callbacks_ point <;> rfl
  · unfold Process
    rw [henter]
    unfold afterPredecessors
    simp only [armMarkers_callbacks]
    cases d.callbacks_ point <;> rfl
  · unfold Process
    rw [henter]
    unfold afterPredecessors
    simp only [armMarkers_callbacks]
    cases d.callbacks_ point with
    | none => simp
    | some cb => simp [ProcessCallbackReturn]
  · rw [henter]
    unfold afterPredecessors
    simp only [armMarkers_callbacks]
    cases d.callbacks_ point <;> rfl
  · intro later
    simp [ProcessCallbackReturn]

/-- Witness for C2: with the callback 7 registered for `X` and no dependency loaded,
`Process(X, 42)` completes and invokes the callback once with 42; a second call, with `X`
already cleared, invokes it once more. -/
theorem process_completes_and_invokes_callback_witness :
    (Process (SetCallBack (EnableProcessing Data.init) "X" 7) "X" 42 1).status = Status.cleared
      ∧ (Process (SetCallBack (EnableProcessing Data.init) "X" 7) "X" 42 1).invoked = [(7, 42)]
      ∧ "X" ∈ (Process (SetCallBack (EnableProcessing Data.init) "X" 7) "X" 42 1).data.cleared_points_
      ∧ (Process (Process (SetCallBack (EnableProcessing Data.init) "X" 7) "X" 42 1).data
          "X" 43 1).invoked = [(7, 43)] :=
  have h := process_completes_and_invokes_callback
    (SetCallBack (EnableProcessing Data.init) "X" 7) "X" 42 1 (by decide) (by decide) (by decide)
  ⟨h.1, h.2.1, h.2.2.1, by decide⟩

/-- C3.  With processing enabled, a `Process` call on a point that has no predecessor in the
loaded graph (its predecessor list is absent or empty) never blocks, whatever the state, the
argument and the calling thread: it returns, either passed through by the marker rule or after
clearing the point. -/
theorem process_without_predecessors_never_blocks (d : Data) (point : String) (cb_arg : CbArg)
    (thread_id : ThreadId) (henabled : d.enabled_ = true)
    (hnone : listAt d.predecessors_ point = []) :
    (Process d point cb_arg thread_id).status ≠ Status.waiting
      ∧ ((Process d point cb_arg thread_id).status = Status.disabled_by_marker
          ∨ (Process d point cb_arg thread_id).status = Status.cleared) := by
  have key : (Process d point cb_arg thread_id).status = Status.disabled_by_marker
      ∨ (Process d point cb_arg thread_id).status = Status.cleared := by
    cases hmarker : DisabledByMarker (armMarkers d point thread_id) point thread_id with
    | true =>
      left
      simp [Process, ProcessEnter, henabled, hmarker]
    | false =>
      right
      have hpred : ∀ pred ∈ listAt d.predecessors_ point, pred ∈ d.cleared_points_ := by
        rw [hnone]
        intro pred hp
        cases hp
      unfold Process
      rw [ProcessEnter_of_cleared_predecessors d point thread_id henabled hpred hmarker]
      unfold afterPredecessors
      cases (armMarkers d point thread_id).callbacks_ point <;> rfl
  refine ⟨?_, key⟩
  rcases key with h | h <;> rw [h] <;> decide

/-- Witness for C3: after `LoadDependency([(A, B)])` with processing enabled, `A` has no
predecessor and `Process(A)` does not block. -/
theorem process_without_predecessors_never_blocks_witness :
    listAt (EnableProcessing (LoadDependency Data.init [⟨"A", "B"⟩])).predecessors_ "A" = []
      ∧ (Process (EnableProcessing (LoadDependency Data.init [⟨"A", "B"⟩])) "A" 0 1).status
          ≠ Status.waiting :=
  ⟨by decide,
    (process_without_predecessors_never_blocks
      (EnableProcessing (LoadDependency Data.init [⟨"A", "B"⟩])) "A" 0 1 (by decide)
      (by decide)).1⟩

/-- C4.  With processing disabled, `Process(point, cb_arg)` is a no-op for every state, point,
argument and thread: it returns at once (line 83), invokes no callback, and leaves the whole
engine record (graph, marker table, thread-affinity map, cleared set, callback registry and
running-callback counter) as it was. -/
theorem process_disabled_is_noop (d : Data) (point : String) (cb_arg : CbArg)
    (thread_id : ThreadId) (hdisabled : d.enabled_ = false) :
    (Process d point cb_arg thread_id).status = Status.not_enabled
      ∧ (Process d point cb_arg thread_id).invoked = []
      ∧ (Process d point cb_arg thread_id).data = d := by
  simp [Process, ProcessEnter, hdisabled]

/-- Witness for C4: at process start processing is disabled, and `Process(B)` on a loaded graph
in which `B` has the uncleared predecessor `A` returns at once and changes nothing. -/
theorem process_disabled_is_noop_witness :
    (LoadDependency Data.init [⟨"A", "B"⟩]).enabled_ = false
      ∧ (Process (LoadDependency Data.init [⟨"A", "B"⟩]) "B" 0 1).status = Status.not_enabled
      ∧ (Process (LoadDependency Data.init [⟨"A", "B"⟩]) "B" 0 1).data
          = LoadDependency Data.init [⟨"A", "B"⟩] :=
  have h := process_disabled_is_noop (LoadDependency Data.init [⟨"A", "B"⟩]) "B" 0 1 (by decide)
  ⟨by decide, h.1, h.2.2⟩

/-- C5 (counterexample).  After `LoadDependencyAndMarkers([], [(A, B)])` and a `Process(A)` of
thread 1, thread 1 is recorded for `B`.  With processing enabled, the arming step of a
`Process(A)` of thread 2 leaves thread 1 recorded for `B`: `emplace` (line 102) does not
overwrite, so `B` is not re-armed for thread 2. -/
theorem arming_does_not_rearm :
    (Process (LoadDependencyAndMarkers (EnableProcessing Data.init) [] [⟨"A", "B"⟩])
        "A" 0 1).data.enabled_ = true
      ∧ "B" ∈ listAt (Process (LoadDependencyAndMarkers (EnableProcessing Data.init) []
          [⟨"A", "B"⟩]) "A" 0 1).data.markers_ "A"
      ∧ (Process (LoadDependencyAndMarkers (EnableProcessing Data.init) [] [⟨"A", "B"⟩])
          "A" 0 1).data.marked_thread_id_ "B" = some 1
      ∧ (armMarkers
          (Process (LoadDependencyAndMarkers (EnableProcessing Data.init) [] [⟨"A", "B"⟩])
            "A" 0 1).data "A" 2).marked_thread_id_ "B" ≠ some 2
      ∧ (Process
          (Process (LoadDependencyAndMarkers (EnableProcessing Data.init) [] [⟨"A", "B"⟩])
            "A" 0 1).data "A" 0 2).data.marked_thread_id_ "B" = some 1 := by
  decide

/-- C5 (amended).  With processing enabled, after the arming step of `Process(A)` of thread `T`
every marked successor `b` of `A` has a recorded authorized thread: `T` when no thread was
recorded for `b` before the call, and the thread recorded before the call otherwise (it is
kept).  The `Process` call leaves that record as the arming step made it. -/
theorem arming_records_first_thread (d : Data) (A : String) (cb_arg : CbArg) (T : ThreadId)
    (b : String) (henabled : d.enabled_ = true) (hb : b ∈ listAt d.markers_ A) :
    (d.marked_thread_id_ b = none →
        (armMarkers d A T).marked_thread_id_ b = some T
          ∧ (Process d A cb_arg T).data.marked_thread_id_ b = some T)
      ∧ (∀ earlier, d.marked_thread_id_ b = some earlier →
          (armMarkers d A T).marked_thread_id_ b = some earlier
            ∧ (Process d A cb_arg T).data.marked_thread_id_ b = some earlier) := by
  have hproc : (Process d A cb_arg T).data.marked_thread_id_
      = (armMarkers d A T).marked_thread_id_ := by
    rw [(Process_frame d A cb_arg T).2.2.2.1]
    simp [henabled]
  have harm := armMarkers_marked_thread_id d A T b
  rw [if_pos hb] at harm
  rw [hproc]
  constructor
  · intro hnone
    rw [hnone] at harm
    exact ⟨harm, harm⟩
  · intro earlier hsome
    rw [hsome] at harm
    exact ⟨harm, harm⟩

/-- Witness for C5 (amended): after `LoadDependencyAndMarkers([], [(A, B)])` no thread is
recorded for `B`, and `Process(A)` of thread 1 records thread 1; a later `Process(A)` of thread 2
keeps thread 1. -/
theorem arming_records_first_thread_witness :
    (Process (LoadDependencyAndMarkers (EnableProcessing Data.init) [] [⟨"A", "B"⟩])
        "A" 0 1).data.marked_thread_id_ "B" = some 1
      ∧ (Process
          (Process (LoadDependencyAndMarkers (EnableProcessing Data.init) [] [⟨"A", "B"⟩])
            "A" 0 1).data "A" 0 2).data.marked_thread_id_ "B" = some 1 :=
  ⟨((arming_records_first_thread
      (LoadDependencyAndMarkers (EnableProcessing Data.init) [] [⟨"A", "B"⟩]) "A" 0 1 "B"
      (by decide) (by decide)).1 (by decide)).2,
    ((arming_records_first_thread
      (Process (LoadDependencyAndMarkers (EnableProcessing Data.init) [] [⟨"A", "B"⟩])
        "A" 0 1).data "A" 0 2 "B" (by decide) (by decide)).2 1 (by decide)).2⟩

/-- C6 (counterexample).  Right after `LoadDependencyAndMarkers([], [(A, B)])`, with processing
enabled and before any `Process(A)`, no thread is recorded for `B`, so a `Process(B)` of thread 2
(which has called nothing) is not passed through: it blocks on the uncleared predecessor `A`. -/
theorem unarmed_marked_point_blocks :
    Engine.run
        { data := LoadDependencyAndMarkers (EnableProcessing Data.init) [] [⟨"A", "B"⟩]
          pc := fun _ => Pc.idle
          invoked := [] } []
      = some
        { data := LoadDependencyAndMarkers (EnableProcessing Data.init) [] [⟨"A", "B"⟩]
          pc := fun _ => Pc.idle
          invoked := [] }
      ∧ (LoadDependencyAndMarkers (EnableProcessing Data.init) []
          [⟨"A", "B"⟩]).marked_thread_id_ "B" = none
      ∧ (Process (LoadDependencyAndMarkers (EnableProcessing Data.init) [] [⟨"A", "B"⟩])
          "B" 0 2).status = Status.waiting :=
  ⟨rfl, by decide, by decide⟩

/-- C6 (amended).  After `LoadDependencyAndMarkers` with the marker `(A, B)`, where `A` is the
only marker predecessor of `B`, take any state reached by further actions of any threads (with no
new `LoadDependencyAndMarkers`) in which `B` is armed, that is, a thread is recorded for `B`.
A `Process(B)` call there of a thread `T2` that has never called `Process(A)` returns without
blocking (passed through by the marker rule, or at once when processing is disabled), invokes
no callback and leaves the cleared set as it was, so it does not add `B` to it; and a
`Process(B)` call of `T2` that is blocked in `cv_.wait` returns there at its wake-up, changing
nothing.  (The marker makes `A` a loaded predecessor of `B`.) -/
theorem marked_point_passes_other_thread (d : Data) (dependencies markers : List SyncPointPair)
    (pc : ThreadId → Pc) (invoked : List (ThreadId × CallBack × CbArg)) (A B : String)
    (T2 : ThreadId) (acts : List Action) (e : Engine) (cb_arg : CbArg)
    (hmarker : (⟨A, B⟩ : SyncPointPair) ∈ markers)
    (honly : ∀ m ∈ markers, m.successor = B → m.predecessor = A)
    (hrun : Engine.run
      { data := LoadDependencyAndMarkers d dependencies markers, pc := pc, invoked := invoked }
      acts = some e)
    (hload : ∀ a ∈ acts, a.loadsMarkers = false)
    (hnever : ∀ arg, Action.call T2 A arg ∉ acts)
    (harmed : e.data.marked_thread_id_ B ≠ none) :
    A ∈ listAt (LoadDependencyAndMarkers d dependencies markers).predecessors_ B
      ∧ ((Process e.data B cb_arg T2).status = Status.disabled_by_marker
          ∨ (Process e.data B cb_arg T2).status = Status.not_enabled)
      ∧ (Process e.data B cb_arg T2).status ≠ Status.waiting
      ∧ (Process e.data B cb_arg T2).invoked = []
      ∧ (Process e.data B cb_arg T2).data.cleared_points_ = e.data.cleared_points_
      ∧ (ProcessResume e.data B cb_arg T2).status = Status.disabled_by_marker
      ∧ (ProcessResume e.data B cb_arg T2).data = e.data := by
  refine ⟨?_, ?_⟩
  · unfold listAt
    rw [LoadDependencyAndMarkers_predecessors, indexEntry_getD, mem_predecessorsOf]
    exact ⟨⟨A, B⟩, List.mem_append_right _ hmarker, rfl, rfl⟩
  · have honly1 : ∀ a, B ∈ listAt (LoadDependencyAndMarkers d dependencies markers).markers_ a →
        a = A := by
      intro a ha
      unfold listAt at ha
      rw [LoadDependencyAndMarkers_markers, indexEntry_getD, mem_successorsOf] at ha
      obtain ⟨m, hm, hp, hs⟩ := ha
      rw [← hp]
      exact honly m hm hs
    have hstart : (LoadDependencyAndMarkers d dependencies markers).marked_thread_id_ B
        ≠ some T2 := by
      rw [LoadDependencyAndMarkers_marked_thread_id]
      simp [StrMap.clear]
    have hnot := run_never_records A B T2 acts _ e hrun hload hnever honly1 hstart
    cases hrec : e.data.marked_thread_id_ B with
    | none => exact absurd hrec harmed
    | some authorized =>
      have hother : authorized ≠ T2 := by
        intro h
        rw [hrec, h] at hnot
        exact hnot rfl
      have hne : ¬ T2 = authorized := fun h => hother h.symm
      have hdis : DisabledByMarker e.data B T2 = true := by
        simp [DisabledByMarker, hrec, hne]
      have hwake : ProcessResume e.data B cb_arg T2
          = { status := Status.disabled_by_marker, invoked := [], data := e.data } := by
        simp [ProcessResume, ProcessWake, hdis]
      rw [hwake]
      cases henabled : e.data.enabled_ with
      | false =>
        have hrun1 : Process e.data B cb_arg T2
            = { status := Status.not_enabled, invoked := [], data := e.data } := by
          simp [Process, ProcessEnter, henabled]
        rw [hrun1]
        simp
      | true =>
        have harm : (armMarkers e.data B T2).marked_thread_id_ B = some authorized := by
          rw [armMarkers_marked_thread_id, hrec]
          simp
        rw [Process_of_other_thread_recorded e.data B cb_arg T2 authorized henabled harm hother]
        simp [armMarkers_cleared]

/-- Witness for C6 (amended): after `LoadDependencyAndMarkers([], [(A, B)])` with processing
enabled, thread 1 calls `Process(A)`, which arms `B` for thread 1; `Process(B)` of thread 2 is
then passed through and `B` is not cleared. -/
theorem marked_point_passes_other_thread_witness :
    (Process
        (Engine.advance
          { data := LoadDependencyAndMarkers (EnableProcessing Data.init) [] [⟨"A", "B"⟩]
            pc := fun _ => Pc.idle
            invoked := [] }
          1 "A" 0
          (ProcessEnter (LoadDependencyAndMarkers (EnableProcessing Data.init) []
            [⟨"A", "B"⟩]) "A" 1)).data
        "B" 0 2).status ≠ Status.waiting
      ∧ "B" ∉ (Process
        (Engine.advance
          { data := LoadDependencyAndMarkers (EnableProcessing Data.init) [] [⟨"A", "B"⟩]
            pc := fun _ => Pc.idle
            invoked := [] }
          1 "A" 0
          (ProcessEnter (LoadDependencyAndMarkers (EnableProcessing Data.init) []
            [⟨"A", "B"⟩]) "A" 1)).data
        "B" 0 2).data.cleared_points_ :=
  have h := marked_point_passes_other_thread (EnableProcessing Data.init) [] [⟨"A", "B"⟩]
    (fun _ => Pc.idle) [] "A" "B" 2 [Action.call 1 "A" 0]
    (Engine.advance
      { data := LoadDependencyAndMarkers (EnableProcessing Data.init) [] [⟨"A", "B"⟩]
        pc := fun _ => Pc.idle
        invoked := [] }
      1 "A" 0
      (ProcessEnter (LoadDependencyAndMarkers (EnableProcessing Data.init) []
        [⟨"A", "B"⟩]) "A" 1))
    0 (by decide) (by decide) rfl (by decide) (by simp) (by decide)
  ⟨h.2.2.1, by decide⟩

/-- C7 (marker pass-through).  With processing enabled, when after the call's own arming step a
thread other than the caller is recorded for `point`, the call `Process(point, cb_arg)` returns
at line 110 without blocking: no callback is invoked and the cleared set is as before, whatever
the predecessors of `point` and whether or not a callback is registered for it.  A waiter that
finds another thread recorded for `point` when it wakes returns likewise (line 116), leaving
the engine as it found it. -/
theorem marker_pass_through (d : Data) (point : String) (cb_arg : CbArg)
    (thread_id authorized : ThreadId) (henabled : d.enabled_ = true)
    (hrecorded : (armMarkers d point thread_id).marked_thread_id_ point = some authorized)
    (hother : authorized ≠ thread_id) :
    ((Process d point cb_arg thread_id).status = Status.disabled_by_marker
      ∧ (Process d point cb_arg thread_id).invoked = []
      ∧ (Process d point cb_arg thread_id).data.cleared_points_ = d.cleared_points_)
    ∧ ∀ later : Data, later.marked_thread_id_ point = some authorized →
        (ProcessResume later point cb_arg thread_id).status = Status.disabled_by_marker
          ∧ (ProcessResume later point cb_arg thread_id).invoked = []
          ∧ (ProcessResume later point cb_arg thread_id).data = later := by
  have hne : ¬ thread_id = authorized := fun h => hother h.symm
  constructor
  · rw [Process_of_other_thread_recorded d point cb_arg thread_id authorized henabled hrecorded
      hother]
    exact ⟨rfl, rfl, armMarkers_cleared d point thread_id⟩
  · intro later hlater
    have hdis : DisabledByMarker later point thread_id = true := by
      simp [DisabledByMarker, hlater, hne]
    simp [ProcessResume, ProcessWake, hdis]

/-- Witness for C7: with dependency `(C, B)`, marker `(A, B)`, thread 1 recorded for `B` by its
`Process(A)`, `C` not cleared and the callback 7 registered for `B`, the call `Process(B)` of
thread 2 returns at once, invokes nothing and does not clear `B`. -/
theorem marker_pass_through_witness :
    "C" ∈ listAt (SetCallBack (Process (LoadDependencyAndMarkers (EnableProcessing Data.init)
        [⟨"C", "B"⟩] [⟨"A", "B"⟩]) "A" 0 1).data "B" 7).predecessors_ "B"
      ∧ "C" ∉ (SetCallBack (Process (LoadDependencyAndMarkers (EnableProcessing Data.init)
        [⟨"C", "B"⟩] [⟨"A", "B"⟩]) "A" 0 1).data "B" 7).cleared_points_
      ∧ (SetCallBack (Process (LoadDependencyAndMarkers (EnableProcessing Data.init)
        [⟨"C", "B"⟩] [⟨"A", "B"⟩]) "A" 0 1).data "B" 7).callbacks_ "B" = some 7
      ∧ (Process (SetCallBack (Process (LoadDependencyAndMarkers (EnableProcessing Data.init)
          [⟨"C", "B"⟩] [⟨"A", "B"⟩]) "A" 0 1).data "B" 7) "B" 0 2).status
          = Status.disabled_by_marker
      ∧ (Process (SetCallBack (Process (LoadDependencyAndMarkers (EnableProcessing Data.init)
          [⟨"C", "B"⟩] [⟨"A", "B"⟩]) "A" 0 1).data "B" 7) "B" 0 2).invoked = []
      ∧ "B" ∉ (Process (SetCallBack (Process (LoadDependencyAndMarkers
          (EnableProcessing Data.init) [⟨"C", "B"⟩] [⟨"A", "B"⟩]) "A" 0 1).data "B" 7)
          "B" 0 2).data.cleared_points_ :=
  have h := (marker_pass_through
    (SetCallBack (Process (LoadDependencyAndMarkers (EnableProcessing Data.init)
      [⟨"C", "B"⟩] [⟨"A", "B"⟩]) "A" 0 1).data "B" 7) "B" 0 2 1 (by decide) (by decide)
    (by decide)).1
  ⟨by decide, by decide, by decide, h.1, h.2.1, by decide⟩

/-- C8 (the code at the failing input).  After `LoadDependencyAndMarkers([], [(A, B)])` and a
`Process(A)` of thread 1 that arms `B`, a call `LoadDependency([])` empties the graph and the
cleared set but keeps the marker `(A, B)` and the thread recorded for `B`: lines 12-14 clear three
containers, where lines 31-35 of `LoadDependencyAndMarkers` clear five.  A later `Process(B)` of
thread 2 is passed through by the marker of the earlier load. -/
theorem load_dependency_keeps_marker_state :
    (LoadDependency
        (Process (LoadDependencyAndMarkers (EnableProcessing Data.init) [] [⟨"A", "B"⟩])
          "A" 0 1).data []).markers_ "A" = some ["B"]
      ∧ (LoadDependency
          (Process (LoadDependencyAndMarkers (EnableProcessing Data.init) [] [⟨"A", "B"⟩])
            "A" 0 1).data []).marked_thread_id_ "B" = some 1
      ∧ (LoadDependency
          (Process (LoadDependencyAndMarkers (EnableProcessing Data.init) [] [⟨"A", "B"⟩])
            "A" 0 1).data []).successors_ "A" = none
      ∧ (LoadDependency
          (Process (LoadDependencyAndMarkers (EnableProcessing Data.init) [] [⟨"A", "B"⟩])
            "A" 0 1).data []).cleared_points_ = ∅
      ∧ (Process
          (LoadDependency
            (Process (LoadDependencyAndMarkers (EnableProcessing Data.init) [] [⟨"A", "B"⟩])
              "A" 0 1).data [])
          "B" 0 2).status = Status.disabled_by_marker := by
  decide

/-- C9.  The function `LoadDependency(edges)` replaces the graph and the clearance history
wholesale, whatever the prior state: afterwards the cleared set is empty (no point is cleared),
the successor list of every name `a` is exactly the successors of the pairs of `edges` with
predecessor `a`, in input order, and the predecessor list of every name `b` is exactly the
predecessors of the pairs with successor `b`, in input order; a name with no such pair has no
entry at all, so nothing survives from an earlier load. -/
theorem load_dependency_replaces_graph (d : Data) (edges : List SyncPointPair) :
    (LoadDependency d edges).cleared_points_ = ∅
      ∧ (∀ point, point ∉ (LoadDependency d edges).cleared_points_)
      ∧ (∀ a, listAt (LoadDependency d edges).successors_ a = successorsOf edges a)
      ∧ (∀ b, listAt (LoadDependency d edges).predecessors_ b = predecessorsOf edges b)
      ∧ (∀ a, (LoadDependency d edges).successors_ a = indexEntry (successorsOf edges a))
      ∧ (∀ b, (LoadDependency d edges).predecessors_ b
            = indexEntry (predecessorsOf edges b)) := by
  have hcleared : (LoadDependency d edges).cleared_points_ = ∅ := by
    rw [LoadDependency_frame]
  refine ⟨hcleared, ?_, ?_, ?_, LoadDependency_successors d edges,
    LoadDependency_predecessors d edges⟩
  · intro point
    rw [hcleared]
    exact Finset.not_mem_empty point
  · intro a
    unfold listAt
    rw [LoadDependency_successors, indexEntry_getD]
  · intro b
    unfold listAt
    rw [LoadDependency_predecessors, indexEntry_getD]

/-- C10.  After `LoadDependency(dependencies)` and after
`LoadDependencyAndMarkers(dependencies, markers)`, for all inputs (duplicate pairs and self-edges
included) and whatever the prior state, the two indexes are exact inverses: for all names `a`
and `b`, `b` occurs in the successor list of `a` as often as `a` occurs in the predecessor list
of `b`. -/
theorem load_indexes_are_inverse (d : Data) (dependencies markers : List SyncPointPair)
    (a b : String) :
    List.count b (listAt (LoadDependency d dependencies).successors_ a)
        = List.count a (listAt (LoadDependency d dependencies).predecessors_ b)
      ∧ List.count b (listAt (LoadDependencyAndMarkers d dependencies markers).successors_ a)
        = List.count a
            (listAt (LoadDependencyAndMarkers d dependencies markers).predecessors_ b) := by
  unfold listAt
  rw [LoadDependency_successors, LoadDependency_predecessors,
    LoadDependencyAndMarkers_successors, LoadDependencyAndMarkers_predecessors]
  simp only [indexEntry_getD]
  exact ⟨count_successorsOf dependencies a b, count_successorsOf (dependencies ++ markers) a b⟩

/-- C11 (the code at the failing input).  From the initial state, the calls
`LoadDependencyAndMarkers([], [(A, B)])` and then `LoadDependency([])` reach a state whose marker
table still holds the pair `(A, B)` while neither index holds the edge: `B` is not in the
successor list of `A` and `A` is not in the predecessor list of `B` (`LoadDependency` clears the
two indexes but not `markers_`). -/
theorem marker_without_dependency_edge :
    (Engine.run Engine.init
        [Action.load_dependency_and_markers [] [⟨"A", "B"⟩], Action.load_dependency []]).map
        (fun e => (e.data.markers_ "A", e.data.successors_ "A", e.data.predecessors_ "B"))
      = some (some ["B"], none, none)
      ∧ "B" ∈ listAt (LoadDependency (LoadDependencyAndMarkers Data.init [] [⟨"A", "B"⟩])
          []).markers_ "A"
      ∧ "B" ∉ listAt (LoadDependency (LoadDependencyAndMarkers Data.init [] [⟨"A", "B"⟩])
          []).successors_ "A"
      ∧ "A" ∉ listAt (LoadDependency (LoadDependencyAndMarkers Data.init [] [⟨"A", "B"⟩])
          []).predecessors_ "B" := by
  decide

/-- C14.  The two loads do not touch the callback side: for every prior state and all inputs,
`LoadDependency` and `LoadDependencyAndMarkers` leave the callback registry, the
running-callback counter and the enabled flag as they were. -/
theorem loads_keep_callback_side (d : Data) (dependencies markers : List SyncPointPair) :
    ((LoadDependency d dependencies).callbacks_ = d.callbacks_
      ∧ (LoadDependency d dependencies).num_callbacks_running_ = d.num_callbacks_running_
      ∧ (LoadDependency d dependencies).enabled_ = d.enabled_)
    ∧ ((LoadDependencyAndMarkers d dependencies markers).callbacks_ = d.callbacks_
      ∧ (LoadDependencyAndMarkers d dependencies markers).num_callbacks_running_
          = d.num_callbacks_running_
      ∧ (LoadDependencyAndMarkers d dependencies markers).enabled_ = d.enabled_) := by
  constructor
  · rw [LoadDependency_frame]
    exact ⟨rfl, rfl, rfl⟩
  · rw [LoadDependencyAndMarkers_frame]
    exact ⟨rfl, rfl, rfl⟩

/-- C17 (frame of `Process`).  Let `r` be a `Process(point, cb_arg)` call of any thread from any
state, run until it returns or blocks, or a blocked call taken up at a wake-up and run until it
returns or blocks again.  It removes no point from the cleared set and adds at most `point`; it
leaves `successors_` as it was and every predecessor list as it was, the only change to
`predecessors_` being an empty entry created for `point` when it had none; it leaves the marker
table, the callback registry, the enabled flag and the running-callback counter as they were;
and the only change to the thread-affinity map is a record of the calling thread for a marked
successor of `point` that had no record. -/
theorem process_frame (d : Data) (point : String) (cb_arg : CbArg) (thread_id : ThreadId)
    (r : Run)
    (hr : r = Process d point cb_arg thread_id ∨ r = ProcessResume d point cb_arg thread_id) :
    d.cleared_points_ ⊆ r.data.cleared_points_
      ∧ r.data.cleared_points_ ⊆ insert point d.cleared_points_
      ∧ r.data.successors_ = d.successors_
      ∧ (∀ k, listAt r.data.predecessors_ k = listAt d.predecessors_ k)
      ∧ (∀ k, r.data.predecessors_ k = d.predecessors_ k
            ∨ (k = point ∧ d.predecessors_ k = none ∧ r.data.predecessors_ k = some []))
      ∧ r.data.markers_ = d.markers_
      ∧ r.data.callbacks_ = d.callbacks_
      ∧ r.data.enabled_ = d.enabled_
      ∧ r.data.num_callbacks_running_ = d.num_callbacks_running_
      ∧ (∀ b, r.data.marked_thread_id_ b = d.marked_thread_id_ b
            ∨ (b ∈ listAt d.markers_ point ∧ d.marked_thread_id_ b = none
                ∧ r.data.marked_thread_id_ b = some thread_id)) := by
  rcases hr with hr | hr
  · rcases Bool.eq_false_or_eq_true d.enabled_ with henabled | henabled
    · rw [hr, Process_eq_resume d point cb_arg thread_id henabled]
      obtain ⟨h1, h2, h3, h4, h5, h6, h7, h8, h9, h10⟩ :=
        ProcessResume_frame (armMarkers d point thread_id) point cb_arg thread_id
      obtain ⟨a1, a2, a3, a4⟩ := armMarkers_fields d point thread_id
      rw [armMarkers_cleared] at h1 h2
      rw [armMarkers_predecessors] at h4 h5
      refine ⟨h1, h2, h3.trans a1, h4, h5, h6.trans a2,
        h7.trans (armMarkers_callbacks d point thread_id), h8.trans a3, h9.trans a4, ?_⟩
      intro b
      rw [h10, armMarkers_marked_thread_id]
      by_cases hb : b ∈ listAt d.markers_ point
      · rw [if_pos hb]
        cases hrec : d.marked_thread_id_ b with
        | none => right; exact ⟨hb, rfl, rfl⟩
        | some earlier => left; rfl
      · rw [if_neg hb]
        left; rfl
    · rw [hr, Process_not_enabled d point cb_arg thread_id henabled]
      exact ⟨Finset.Subset.refl _, Finset.subset_insert _ _, rfl, fun _ => rfl,
        fun _ => Or.inl rfl, rfl, rfl, rfl, rfl, fun _ => Or.inl rfl⟩
  · rw [hr]
    obtain ⟨h1, h2, h3, h4, h5, h6, h7, h8, h9, h10⟩ :=
      ProcessResume_frame d point cb_arg thread_id
    exact ⟨h1, h2, h3, h4, h5, h6, h7, h8, h9, fun b => Or.inl (by rw [h10])⟩

/-- Witness for C17: with the marker `(A, B)` loaded and the callback 7 registered for `A`, the
call `Process(A)` of thread 1 completes; the counter is back at its value, `A` is the only point
added to the cleared set, and thread 1 is recorded for `B`. -/
theorem process_frame_witness :
    (Process (SetCallBack (EnableProcessing (LoadDependencyAndMarkers Data.init []
        [⟨"A", "B"⟩])) "A" 7) "A" 0 1).data.num_callbacks_running_ = 0
      ∧ (Process (SetCallBack (EnableProcessing (LoadDependencyAndMarkers Data.init []
          [⟨"A", "B"⟩])) "A" 7) "A" 0 1).data.cleared_points_ ⊆ insert "A" ∅
      ∧ (Process (SetCallBack (EnableProcessing (LoadDependencyAndMarkers Data.init []
          [⟨"A", "B"⟩])) "A" 7) "A" 0 1).data.marked_thread_id_ "B" = some 1 :=
  have h := process_frame
    (SetCallBack (EnableProcessing (LoadDependencyAndMarkers Data.init [] [⟨"A", "B"⟩])) "A" 7)
    "A" 0 1 _ (Or.inl rfl)
  ⟨h.2.2.2.2.2.2.2.2.1, h.2.1, by decide⟩

/-- C13.  When `ClearCallBack(point)` completes, the registry has no callback for `point`, the
callback of every other point is as before, and the graph, the marker table, the thread-affinity
map and the cleared set are as before; then, after any actions of any threads among which there
is no `SetCallBack(point)`, the point still has no callback and a `Process(point)` call (or a
woken one) invokes none.  When `ClearAllCallBacks()` completes, the registry is empty, with the
same frame, and the same holds for every point `q` as long as there is no `SetCallBack(q)`. -/
theorem clearing_callbacks_effect (d d1 : Data) (point : String) :
    (ClearCallBack d point = some d1 →
        d1.callbacks_ point = none
          ∧ (∀ q, q ≠ point → d1.callbacks_ q = d.callbacks_ q)
          ∧ (d1.successors_ = d.successors_ ∧ d1.predecessors_ = d.predecessors_
              ∧ d1.markers_ = d.markers_ ∧ d1.marked_thread_id_ = d.marked_thread_id_
              ∧ d1.cleared_points_ = d.cleared_points_)
          ∧ ∀ (pc : ThreadId → Pc) (invoked : List (ThreadId × CallBack × CbArg))
              (acts : List Action) (e : Engine) (cb_arg : CbArg) (thread_id : ThreadId),
              Engine.run { data := d1, pc := pc, invoked := invoked } acts = some e →
              (∀ a ∈ acts, a.setsCallBack point = false) →
              e.data.callbacks_ point = none
                ∧ (Process e.data point cb_arg thread_id).invoked = []
                ∧ (ProcessResume e.data point cb_arg thread_id).invoked = [])
      ∧ (ClearAllCallBacks d = some d1 →
          (∀ q, d1.callbacks_ q = none)
            ∧ (d1.successors_ = d.successors_ ∧ d1.predecessors_ = d.predecessors_
                ∧ d1.markers_ = d.markers_ ∧ d1.marked_thread_id_ = d.marked_thread_id_
                ∧ d1.cleared_points_ = d.cleared_points_)
            ∧ ∀ (q : String) (pc : ThreadId → Pc) (invoked : List (ThreadId × CallBack × CbArg))
                (acts : List Action) (e : Engine) (cb_arg : CbArg) (thread_id : ThreadId),
                Engine.run { data := d1, pc := pc, invoked := invoked } acts = some e →
                (∀ a ∈ acts, a.setsCallBack q = false) →
                e.data.callbacks_ q = none
                  ∧ (Process e.data q cb_arg thread_id).invoked = []
                  ∧ (ProcessResume e.data q cb_arg thread_id).invoked = []) := by
  constructor
  · intro h
    unfold ClearCallBack at h
    split at h
    · cases h
    · cases h
      have hnone : (d.callbacks_.erase point) point = none := by simp [StrMap.erase]
      refine ⟨hnone, ?_, ⟨rfl, rfl, rfl, rfl, rfl⟩, ?_⟩
      · intro q hq
        simp [StrMap.erase, hq]
      · intro pc invoked acts e cb_arg thread_id hrun hset
        have he := run_callbacks_none point acts _ e hrun hset hnone
        exact ⟨he, Process_invoked_none e.data point cb_arg thread_id he,
          ProcessResume_invoked_none e.data point cb_arg thread_id he⟩
  · intro h
    unfold ClearAllCallBacks at h
    split at h
    · cases h
    · cases h
      refine ⟨fun _ => rfl, ⟨rfl, rfl, rfl, rfl, rfl⟩, ?_⟩
      intro q pc invoked acts e cb_arg thread_id hrun hset
      have he := run_callbacks_none q acts _ e hrun hset rfl
      exact ⟨he, Process_invoked_none e.data q cb_arg thread_id he,
        ProcessResume_invoked_none e.data q cb_arg thread_id he⟩

/-- Witness for C13: with the callback 7 registered for `X` and no callback running,
`ClearCallBack(X)` and `ClearAllCallBacks()` complete; afterwards `X` has no callback and
`Process(X)` invokes none. -/
theorem clearing_callbacks_effect_witness :
    ({ SetCallBack (EnableProcessing Data.init) "X" 7 with
        callbacks_ := (SetCallBack (EnableProcessing Data.init) "X" 7).callbacks_.erase "X" }
        : Data).callbacks_ "X" = none
      ∧ (Process
          { SetCallBack (EnableProcessing Data.init) "X" 7 with
            callbacks_ := (SetCallBack (EnableProcessing Data.init) "X" 7).callbacks_.erase "X" }
          "X" 0 1).invoked = []
      ∧ (Process
          { SetCallBack (EnableProcessing Data.init) "X" 7 with callbacks_ := StrMap.clear }
          "X" 0 1).invoked = [] :=
  have h1 := (clearing_callbacks_effect (SetCallBack (EnableProcessing Data.init) "X" 7)
    { SetCallBack (EnableProcessing Data.init) "X" 7 with
      callbacks_ := (SetCallBack (EnableProcessing Data.init) "X" 7).callbacks_.erase "X" }
    "X").1 rfl
  have h2 := (clearing_callbacks_effect (SetCallBack (EnableProcessing Data.init) "X" 7)
    { SetCallBack (EnableProcessing Data.init) "X" 7 with callbacks_ := StrMap.clear }
    "X").2 rfl
  ⟨h1.1, (h1.2.2.2 (fun _ => Pc.idle) [] [] _ 0 1 rfl (by simp)).2.1,
    (h2.2.2 "X" (fun _ => Pc.idle) [] [] _ 0 1 rfl (by simp)).2.1⟩

/-- C12 (quiescence barrier).  In every state with the running-callback counter above zero,
`ClearCallBack(point)` and `ClearAllCallBacks()` do not complete (they stay in `cv_.wait`), so
they remove no registry entry.  In every state reached from the initial state by any actions of
any threads, the counter is the number of threads inside a callback invocation, between the
increment of line 122 and the decrement of line 126: it is above zero exactly when there is
such a thread, it is never negative, and the two clearing calls complete only when it is
zero. -/
theorem quiescence_barrier (acts : List Action) (e : Engine)
    (hrun : Engine.run Engine.init acts = some e) :
    (∀ (d : Data) (point : String), d.num_callbacks_running_ > 0 →
        ClearCallBack d point = none ∧ ClearAllCallBacks d = none)
      ∧ (e.data.num_callbacks_running_ > 0 →
          ∀ point, e.step (Action.clear_callback point) = none
            ∧ e.step Action.clear_all_callbacks = none)
      ∧ counterCounts e
      ∧ (e.data.num_callbacks_running_ > 0 ↔ ∃ t, (e.pc t).inCallback = true)
      ∧ (∀ point d1, ClearCallBack e.data point = some d1 → e.data.num_callbacks_running_ = 0)
      ∧ (∀ d1, ClearAllCallBacks e.data = some d1 → e.data.num_callbacks_running_ = 0) := by
  have hwait : ∀ (d : Data) (point : String), d.num_callbacks_running_ > 0 →
      ClearCallBack d point = none ∧ ClearAllCallBacks d = none := by
    intro d point hpos
    simp [ClearCallBack, ClearAllCallBacks, hpos]
  have hcount := run_counterCounts acts Engine.init e hrun counterCounts_init
  obtain ⟨S, hS, hcard⟩ := hcount
  have hnonneg : 0 ≤ e.data.num_callbacks_running_ := by
    rw [hcard]
    exact Int.natCast_nonneg _
  refine ⟨hwait, ?_, ⟨S, hS, hcard⟩, ?_, ?_, ?_⟩
  · intro hpos point
    obtain ⟨h1, h2⟩ := hwait e.data point hpos
    simp [Engine.step, h1, h2]
  · rw [hcard]
    constructor
    · intro hpos
      have hpos1 : 0 < S.card := by exact_mod_cast hpos
      obtain ⟨t, ht⟩ := Finset.card_pos.mp hpos1
      exact ⟨t, (hS t).mp ht⟩
    · rintro ⟨t, ht⟩
      have hpos1 : 0 < S.card := Finset.card_pos.mpr ⟨t, (hS t).mpr ht⟩
      exact_mod_cast hpos1
  · intro point d1 h
    unfold ClearCallBack at h
    split at h
    · cases h
    · omega
  · intro d1 h
    unfold ClearAllCallBacks at h
    split at h
    · cases h
    · omega

/-- Witness for C12: after `SetCallBack(X, 7)`, `EnableProcessing()` and the first section of
`Process(X)` of thread 1, thread 1 is inside the callback, the counter is 1, and
`ClearCallBack(X)` and `ClearAllCallBacks()` do not complete; after the callback has returned,
the counter is 0 and `ClearCallBack(X)` completes. -/
theorem quiescence_barrier_witness :
    (Engine.run Engine.init
        [Action.set_callback "X" 7, Action.enable_processing, Action.call 1 "X" 0]).map
        (fun e => (e.data.num_callbacks_running_, e.pc 1, (ClearCallBack e.data "X").isSome,
          (ClearAllCallBacks e.data).isSome))
      = some (1, Pc.in_callback "X" 7 0, false, false)
      ∧ (Engine.run Engine.init
          [Action.set_callback "X" 7, Action.enable_processing, Action.call 1 "X" 0,
            Action.callback_return 1]).map
          (fun e => (e.data.num_callbacks_running_, e.pc 1, (ClearCallBack e.data "X").isSome))
        = some (0, Pc.idle, true)
      ∧ ((((Engine.run Engine.init
          [Action.set_callback "X" 7, Action.enable_processing, Action.call 1 "X" 0]).getD
          Engine.init).data.num_callbacks_running_ > 0)
        ↔ ∃ t, ((((Engine.run Engine.init
          [Action.set_callback "X" 7, Action.enable_processing, Action.call 1 "X" 0]).getD
          Engine.init).pc t).inCallback = true)) :=
  ⟨by decide, by decide,
    (quiescence_barrier
      [Action.set_callback "X" 7, Action.enable_processing, Action.call 1 "X" 0]
      ((Engine.run Engine.init
        [Action.set_callback "X" 7, Action.enable_processing, Action.call 1 "X" 0]).getD
        Engine.init) rfl).2.2.2.1⟩

/-- C16 (counterexample).  After `LoadDependency([(A, A)])` from the initial state the graph
has the cycle `A`, the cleared set is empty and no marker passes thread 1 through, but processing
is disabled (as it is on startup): `Process(A)` returns at line 83 and does not block. -/
theorem cycle_point_returns_when_disabled :
    isCycle (LoadDependency Data.init [⟨"A", "A"⟩]) ["A"]
      ∧ (LoadDependency Data.init [⟨"A", "A"⟩]).cleared_points_ = ∅
      ∧ DisabledByMarker (armMarkers (LoadDependency Data.init [⟨"A", "A"⟩]) "A" 1) "A" 1
          = false
      ∧ (Process (LoadDependency Data.init [⟨"A", "A"⟩]) "A" 0 1).status = Status.not_enabled
      ∧ (Process (LoadDependency Data.init [⟨"A", "A"⟩]) "A" 0 1).status ≠ Status.waiting := by
  decide

/-- C16 (amended).  Let the loaded graph contain a cycle (a self-edge included), the cleared set
be empty and no thread be inside a callback.  In every state reached from there by sections of
`Process` calls of any threads, no point of the cycle is in the cleared set; with processing
enabled, every `Process` call on a point of the cycle by a thread that the marker rule does not
pass through blocks and invokes nothing; and a waiter on a point of the cycle that the marker
rule does not pass through blocks again at every wake-up. -/
theorem cycle_blocks_for_good (e0 : Engine) (cycle : List String) (acts : List Action)
    (e : Engine) (hcycle : isCycle e0.data cycle) (hempty : e0.data.cleared_points_ = ∅)
    (hidle : ∀ t, (e0.pc t).inCallback = false)
    (hrun : e0.run acts = some e) (hproc : ∀ a ∈ acts, a.isProcess = true) :
    (∀ point ∈ cycle, point ∉ e.data.cleared_points_)
      ∧ (e.data.enabled_ = true → ∀ point ∈ cycle, ∀ (cb_arg : CbArg) (thread_id : ThreadId),
          DisabledByMarker (armMarkers e.data point thread_id) point thread_id = false →
          (Process e.data point cb_arg thread_id).status = Status.waiting
            ∧ (Process e.data point cb_arg thread_id).invoked = [])
      ∧ (∀ point ∈ cycle, ∀ (cb_arg : CbArg) (thread_id : ThreadId),
          DisabledByMarker e.data point thread_id = false →
          (ProcessResume e.data point cb_arg thread_id).status = Status.waiting
            ∧ (ProcessResume e.data point cb_arg thread_id).invoked = []) := by
  have hclosed := isCycle_predecessor e0.data cycle hcycle
  have hstart : ∀ point ∈ cycle, point ∉ e0.data.cleared_points_ := by
    intro point _
    rw [hempty]
    exact Finset.not_mem_empty point
  have hpc0 : ∀ t point cb arg, e0.pc t = Pc.in_callback point cb arg → point ∉ cycle := by
    intro t point cb arg ht
    have h := hidle t
    rw [ht] at h
    cases h
  obtain ⟨h1, h2, _⟩ := run_cycle cycle e0.data.predecessors_ hclosed acts e0 e hrun
    (fun a ha => Action.isProcess_not_reset a (hproc a ha)) hstart (fun _ => rfl) hpc0
  have hpred : ∀ point ∈ cycle,
      ∃ pred ∈ listAt e.data.predecessors_ point, pred ∉ e.data.cleared_points_ := by
    intro point hpoint
    obtain ⟨pred, hpred, hmem⟩ := hclosed point hpoint
    rw [← h2 point] at hmem
    exact ⟨pred, hmem, h1 pred hpred⟩
  refine ⟨h1, ?_, ?_⟩
  · intro henabled point hpoint cb_arg thread_id hmarker
    exact Process_blocked e.data point cb_arg thread_id henabled (hpred point hpoint) hmarker
  · intro point hpoint cb_arg thread_id hmarker
    exact ProcessResume_blocked e.data point cb_arg thread_id (hpred point hpoint) hmarker

/-- Witness for C16 (amended): with the cycle `A`, `B` loaded and processing enabled, after
`Process(A)` of thread 1, `Process(B)` of thread 2 and a wake-up of thread 1, neither point is
cleared and `Process(A)` of thread 3 blocks. -/
theorem cycle_blocks_for_good_witness :
    "A" ∉ ((Engine.run
        { data := EnableProcessing (LoadDependency Data.init [⟨"A", "B"⟩, ⟨"B", "A"⟩])
          pc := fun _ => Pc.idle
          invoked := [] }
        [Action.call 1 "A" 0, Action.call 2 "B" 0, Action.wake 1]).getD
        Engine.init).data.cleared_points_
      ∧ (Process ((Engine.run
          { data := EnableProcessing (LoadDependency Data.init [⟨"A", "B"⟩, ⟨"B", "A"⟩])
            pc := fun _ => Pc.idle
            invoked := [] }
          [Action.call 1 "A" 0, Action.call 2 "B" 0, Action.wake 1]).getD Engine.init).data
        "A" 0 3).status = Status.waiting :=
  have h := cycle_blocks_for_good
    { data := EnableProcessing (LoadDependency Data.init [⟨"A", "B"⟩, ⟨"B", "A"⟩])
      pc := fun _ => Pc.idle
      invoked := [] }
    ["A", "B"] [Action.call 1 "A" 0, Action.call 2 "B" 0, Action.wake 1]
    ((Engine.run
      { data := EnableProcessing (LoadDependency Data.init [⟨"A", "B"⟩, ⟨"B", "A"⟩])
        pc := fun _ => Pc.idle
        invoked := [] }
      [Action.call 1 "A" 0, Action.call 2 "B" 0, Action.wake 1]).getD Engine.init)
    (by decide) (by decide) (fun _ => rfl) rfl (by decide)
  ⟨h.1 "A" (by decide), (h.2.1 (by decide) "A" (by decide) 0 3 (by decide)).1⟩

/-- C18 (counterexample).  From the initial state: `EnableProcessing()`, `SetCallBack(X, 7)`,
the first section of `Process(X)` of thread 1 (it finds no predecessor and stands in the
callback, the mutex released at line 123), `LoadDependency([(A, X)])` of another thread, and the
return of the callback (lines 125-130, which insert `X`).  The callback does not act on the
engine.  In the state reached `X` is in the cleared set and its loaded predecessor `A` is not. -/
theorem load_during_callback_breaks_closure :
    (Engine.run Engine.init
        [Action.enable_processing, Action.set_callback "X" 7, Action.call 1 "X" 0,
          Action.load_dependency [⟨"A", "X"⟩], Action.callback_return 1]).isSome = true
      ∧ "X" ∈ ((Engine.run Engine.init
        [Action.enable_processing, Action.set_callback "X" 7, Action.call 1 "X" 0,
          Action.load_dependency [⟨"A", "X"⟩], Action.callback_return 1]).getD
        Engine.init).data.cleared_points_
      ∧ "A" ∈ listAt ((Engine.run Engine.init
        [Action.enable_processing, Action.set_callback "X" 7, Action.call 1 "X" 0,
          Action.load_dependency [⟨"A", "X"⟩], Action.callback_return 1]).getD
        Engine.init).data.predecessors_ "X"
      ∧ "A" ∉ ((Engine.run Engine.init
        [Action.enable_processing, Action.set_callback "X" 7, Action.call 1 "X" 0,
          Action.load_dependency [⟨"A", "X"⟩], Action.callback_return 1]).getD
        Engine.init).data.cleared_points_ := by
  decide

/-- C18 (amended).  In every state reached from the initial state by actions of any threads,
interleaved in any way (the sections of `Process` calls, so also what other threads do while a
callback runs; `LoadDependency`, `LoadDependencyAndMarkers`; the calls of the callback registry,
of the enable flag and `ClearTrace`), in which every load and every trace clear is taken while
no callback is running, the cleared set is closed under loaded predecessors: for every point in
the cleared set, every loaded predecessor of it is in the cleared set. -/
theorem cleared_set_closed_with_quiet_loads (acts : List Action) (e : Engine)
    (hrun : Engine.run Engine.init acts = some e)
    (hquiet : Engine.init.resetsQuiet acts = true) :
    ∀ point ∈ e.data.cleared_points_, ∀ pred ∈ listAt e.data.predecessors_ point,
      pred ∈ e.data.cleared_points_ := by
  apply run_closed acts Engine.init e hrun hquiet
  · exact predecessorClosed_of_empty Data.init rfl
  · exact counterCounts_init
  · intro t x cb arg ht
    cases ht

/-- Witness for C18 (amended): after `LoadDependency([(A, B)])`, `EnableProcessing()`,
`SetCallBack(A, 7)`, the first section of `Process(A)` of thread 1 (which stands in the
callback), a `Process(B)` of thread 2 that blocks meanwhile, the return of the callback and a
wake-up of thread 2, `B` is cleared and so is its predecessor `A`. -/
theorem cleared_set_closed_with_quiet_loads_witness :
    "B" ∈ ((Engine.run Engine.init
        [Action.load_dependency [⟨"A", "B"⟩], Action.enable_processing,
          Action.set_callback "A" 7, Action.call 1 "A" 0, Action.call 2 "B" 0,
          Action.callback_return 1, Action.wake 2]).getD Engine.init).data.cleared_points_
      ∧ "A" ∈ ((Engine.run Engine.init
        [Action.load_dependency [⟨"A", "B"⟩], Action.enable_processing,
          Action.set_callback "A" 7, Action.call 1 "A" 0, Action.call 2 "B" 0,
          Action.callback_return 1, Action.wake 2]).getD Engine.init).data.cleared_points_ :=
  ⟨by decide,
    cleared_set_closed_with_quiet_loads
      [Action.load_dependency [⟨"A", "B"⟩], Action.enable_processing,
        Action.set_callback "A" 7, Action.call 1 "A" 0, Action.call 2 "B" 0,
        Action.callback_return 1, Action.wake 2]
      ((Engine.run Engine.init
        [Action.load_dependency [⟨"A", "B"⟩], Action.enable_processing,
          Action.set_callback "A" 7, Action.call 1 "A" 0, Action.call 2 "B" 0,
          Action.callback_return 1, Action.wake 2]).getD Engine.init)
      rfl (by decide) "B" (by decide) "A" (by decide)⟩

end SyncPoint
